import Mathlib

/-!
Verification development for the plan2table extractors.

This file gives a shallow embedding, in Lean 4, of the table-reconstruction
core of the repository (src/extractors/e055_extractor.py,
src/extractors/raster_extractor.py, src/extractors/e251_extractor.py) and
settles the claims of CLAIMS.json against it.

Embedding conventions:
* Python `float` values are embedded as exact rationals `ℚ`.  All concrete
  inputs used below are small decimals, for which Python's binary floating
  point arithmetic and exact rational arithmetic agree on every comparison
  performed by the embedded code.
* Python `str` values are embedded as `String`.  `unicodedata.normalize("NFKC", ·)`
  is an external library call; it is embedded as the character-level map it
  performs on the character repertoire exercised by this development
  (full-width ASCII forms → ASCII, ideographic space → space), and the
  identity elsewhere.  Python's `str.upper`/`str.lower` are embedded as the
  ASCII case maps (the identity on the non-ASCII characters used here).
* Python's `sorted` is a stable sort; it is embedded as `List.insertionSort`,
  which is also stable.
* Python dicts used as records are embedded as structures whose fields are
  the keys the extractor always populates.
* Mutation of records in place is embedded as explicit state passing: each
  mutating pass is a function `List Cand → List Cand`.
-/

/-! ## Small Python-semantics helpers -/

/-- Python `abs` on floats, written with `if` so that it evaluates. -/
def py_abs (x : ℚ) : ℚ := if x < 0 then -x else x

theorem py_abs_eq_abs (x : ℚ) : py_abs x = |x| := by
  by_cases h : x < 0
  · simp [py_abs, h, abs_of_neg h]
  · simp [py_abs, h, abs_of_nonneg (not_lt.mp h)]

/-- Whitespace characters recognised by Python's `str.strip()` (the subset
relevant to this development). -/
def is_py_space (c : Char) : Bool :=
  c = ' ' ∨ c = '\t' ∨ c = '\n' ∨ c = '\r' ∨ c = '\x0b' ∨ c = '\x0c'

/-- Drop characters satisfying `p` from both ends of a character list. -/
def strip_list (p : Char → Bool) (l : List Char) : List Char :=
  ((l.dropWhile p).reverse.dropWhile p).reverse

/-- Python `str.strip()` (no argument: strips whitespace from both ends). -/
def py_strip (s : String) : String := ⟨strip_list is_py_space s.data⟩

/-- Python `str.strip(chars)`: strips any of the given characters from both ends. -/
def py_strip_chars (cs : List Char) (s : String) : String :=
  ⟨strip_list (fun c => c ∈ cs) s.data⟩

/-- First-occurrence deduplication, as performed by iterating a Python dict's
keys in insertion order. -/
def py_dedup {α : Type} [DecidableEq α] : List α → List α
  | [] => []
  | x :: xs => x :: py_dedup (xs.filter (fun y => y != x))
termination_by l => l.length
decreasing_by
  simp only [List.length_cons]
  exact Nat.lt_succ_of_le (List.length_filter_le _ _)

theorem mem_py_dedup {α : Type} [DecidableEq α] (l : List α) (a : α) :
    a ∈ py_dedup l ↔ a ∈ l := by
  induction l using py_dedup.induct with
  | case1 => simp [py_dedup]
  | case2 x xs ih =>
    by_cases hax : a = x
    · subst hax; simp [py_dedup]
    · simp only [py_dedup, List.mem_cons, hax, false_or, ih, List.mem_filter,
        bne_iff_ne, ne_eq, not_false_iff, and_true]

theorem nodup_py_dedup {α : Type} [DecidableEq α] (l : List α) :
    (py_dedup l).Nodup := by
  induction l using py_dedup.induct with
  | case1 => simp [py_dedup]
  | case2 x xs ih =>
    simp only [py_dedup, List.nodup_cons]
    refine ⟨?_, ih⟩
    rw [mem_py_dedup]
    simp [List.mem_filter]

/-- NFKC character map restricted to the repertoire exercised here:
full-width ASCII variants (U+FF01–U+FF5E) map to ASCII, the ideographic
space U+3000 maps to a plain space, everything else is unchanged. -/
def nfkc_char (c : Char) : Char :=
  if c = '　' then ' '
  else if 0xFF01 ≤ c.toNat ∧ c.toNat ≤ 0xFF5E then Char.ofNat (c.toNat - 0xFEE0)
  else c

/-- e055/e251/raster `normalize_text`: `unicodedata.normalize("NFKC", value or "")`. -/
def normalize_text (s : String) : String := ⟨s.data.map nfkc_char⟩

/-- e055/e251 `compact_text`: NFKC normalize, then remove plain and ideographic spaces. -/
def compact_text (s : String) : String :=
  ⟨((normalize_text s).data.filter (fun c => decide ¬(c = ' '))).filter
      (fun c => decide ¬(c = '　'))⟩

/-- Python `str.upper` restricted to ASCII (identity on the other characters used here). -/
def upper_char (c : Char) : Char :=
  if 'a' ≤ c ∧ c ≤ 'z' then Char.ofNat (c.toNat - 32) else c

/-- Python `str.lower` restricted to ASCII. -/
def lower_char (c : Char) : Char :=
  if 'A' ≤ c ∧ c ≤ 'Z' then Char.ofNat (c.toNat + 32) else c

def to_upper (s : String) : String := ⟨s.data.map upper_char⟩

def to_lower (s : String) : String := ⟨s.data.map lower_char⟩

/-- Substring containment test on strings, via character lists. -/
def list_infix {α : Type} [DecidableEq α] (needle haystack : List α) : Bool :=
  decide (needle <:+: haystack)

def str_contains (haystack needle : String) : Bool :=
  list_infix needle.data haystack.data

/-! ## WordBox / RowCluster primitives

`WordBox` is the OCR token record, `RowCluster` the mutable row aggregate;
both appear identically in e055_extractor.py, e251_extractor.py and
raster_extractor.py.  The bounding box `(x0, y0, x1, y1)` is flattened into
four fields. -/

structure WordBox where
  text : String
  cx : ℚ
  cy : ℚ
  x0 : ℚ
  y0 : ℚ
  x1 : ℚ
  y1 : ℚ
deriving DecidableEq, Repr

instance : Inhabited WordBox := ⟨⟨"", 0, 0, 0, 0, 0, 0⟩⟩

structure RowCluster where
  row_y : ℚ
  words : List WordBox
deriving DecidableEq, Repr

/-- Python `sorted(words, key=lambda w: w.cy)` (stable). -/
def sort_by_cy (ws : List WordBox) : List WordBox :=
  ws.insertionSort (fun a b => a.cy ≤ b.cy)

/-- The sweep loop of `cluster_by_y` / `_cluster_by_y`: the current (last)
cluster is carried as an explicit argument; `row_y` is updated as the
incremental running mean. -/
def cluster_step (th : ℚ) (cur : RowCluster) : List WordBox → List RowCluster
  | [] => [cur]
  | w :: ws =>
    if py_abs (w.cy - cur.row_y) ≤ th then
      cluster_step th
        ⟨(cur.row_y * cur.words.length + w.cy) / (cur.words.length + 1),
         cur.words ++ [w]⟩ ws
    else
      cur :: cluster_step th ⟨w.cy, [w]⟩ ws

/-- `cluster_by_y(words, threshold)` of raster_extractor.py (lines 433-446),
identical to `_cluster_by_y` of e055_extractor.py (lines 242-255) and of
e251_extractor.py (lines 196-209): sort by `cy`, then a single greedy sweep. -/
def cluster_by_y (ws : List WordBox) (th : ℚ) : List RowCluster :=
  match sort_by_cy ws with
  | [] => []
  | w :: rest => cluster_step th ⟨w.cy, [w]⟩ rest

/-! ## C7: the cluster reference y stays within the members' cy range -/

/-- The cluster's `row_y` is bounded below and above by member `cy` values. -/
def cluster_within (c : RowCluster) : Prop :=
  (∃ w ∈ c.words, w.cy ≤ c.row_y) ∧ (∃ w ∈ c.words, c.row_y ≤ w.cy)

theorem mean_step_lower (ρ v : ℚ) (n : ℕ) :
    min ρ v ≤ (ρ * n + v) / (n + 1) := by
  have hn : (0:ℚ) < (n : ℚ) + 1 := by positivity
  rw [le_div_iff₀ hn]
  rcases le_total ρ v with h | h
  · rw [min_eq_left h]
    have : (0:ℚ) ≤ (n : ℚ) := n.cast_nonneg
    nlinarith
  · rw [min_eq_right h]
    have : (0:ℚ) ≤ (n : ℚ) := n.cast_nonneg
    nlinarith

theorem mean_step_upper (ρ v : ℚ) (n : ℕ) :
    (ρ * n + v) / (n + 1) ≤ max ρ v := by
  have hn : (0:ℚ) < (n : ℚ) + 1 := by positivity
  rw [div_le_iff₀ hn]
  rcases le_total ρ v with h | h
  · rw [max_eq_right h]
    have : (0:ℚ) ≤ (n : ℚ) := n.cast_nonneg
    nlinarith
  · rw [max_eq_left h]
    have : (0:ℚ) ≤ (n : ℚ) := n.cast_nonneg
    nlinarith

theorem cluster_step_within (th : ℚ) :
    ∀ (ws : List WordBox) (cur : RowCluster), cluster_within cur →
      ∀ c ∈ cluster_step th cur ws, cluster_within c := by
  intro ws
  induction ws with
  | nil =>
    intro cur h c hc
    simp only [cluster_step, List.mem_singleton] at hc
    exact hc ▸ h
  | cons w rest ih =>
    intro cur h c hc
    simp only [cluster_step] at hc
    by_cases hj : py_abs (w.cy - cur.row_y) ≤ th
    · rw [if_pos hj] at hc
      refine ih _ ?_ c hc
      obtain ⟨⟨w1, hw1, hle1⟩, ⟨w2, hw2, hle2⟩⟩ := h
      have hlow := mean_step_lower cur.row_y w.cy cur.words.length
      have hup := mean_step_upper cur.row_y w.cy cur.words.length
      constructor
      · rcases min_choice cur.row_y w.cy with hmin | hmin
        · rw [hmin] at hlow
          exact ⟨w1, List.mem_append_left _ hw1, le_trans hle1 hlow⟩
        · rw [hmin] at hlow
          exact ⟨w, List.mem_append_right _ (List.mem_singleton_self w), hlow⟩
      · rcases max_choice cur.row_y w.cy with hmax | hmax
        · rw [hmax] at hup
          exact ⟨w2, List.mem_append_left _ hw2, le_trans hup hle2⟩
        · rw [hmax] at hup
          exact ⟨w, List.mem_append_right _ (List.mem_singleton_self w), hup⟩
    · rw [if_neg hj] at hc
      rcases List.mem_cons.mp hc with hc1 | hc2
      · exact hc1 ▸ h
      · exact ih ⟨w.cy, [w]⟩
          ⟨⟨w, List.mem_singleton_self w, le_refl _⟩,
           ⟨w, List.mem_singleton_self w, le_refl _⟩⟩ c hc2

theorem cluster_by_y_within (ws : List WordBox) (th : ℚ) :
    ∀ c ∈ cluster_by_y ws th, cluster_within c := by
  intro c hc
  unfold cluster_by_y at hc
  rcases hs : sort_by_cy ws with _ | ⟨w, rest⟩
  · rw [hs] at hc; simp at hc
  · rw [hs] at hc
    exact cluster_step_within th rest ⟨w.cy, [w]⟩
      ⟨⟨w, List.mem_singleton_self w, le_refl _⟩,
       ⟨w, List.mem_singleton_self w, le_refl _⟩⟩ c hc

/-- C7: for every word list and threshold, every RowCluster returned by
cluster_by_y satisfies min over its member words of cy ≤ row_y ≤ max over
its member words of cy.  (`min?`/`max?` of the member cy list are the min
and max of the members.) -/
theorem cluster_by_y_row_y_in_member_range (ws : List WordBox) (th : ℚ) :
    ∀ c ∈ cluster_by_y ws th, ∀ a b, (c.words.map WordBox.cy).min? = some a →
      (c.words.map WordBox.cy).max? = some b → a ≤ c.row_y ∧ c.row_y ≤ b := by
  intro c hc a b hmin hmax
  obtain ⟨⟨w1, hw1, hle1⟩, ⟨w2, hw2, hle2⟩⟩ := cluster_by_y_within ws th c hc
  haveI : Std.Antisymm fun (x1 x2 : ℚ) => x1 ≤ x2 :=
    ⟨fun h1 h2 => le_antisymm h1 h2⟩
  have hmin' := (List.min?_eq_some_iff (fun a => le_refl a) min_choice
    (fun a b c => le_min_iff)).mp hmin
  have hmax' := (List.max?_eq_some_iff (fun a => le_refl a) max_choice
    (fun a b c => max_le_iff)).mp hmax
  constructor
  · exact le_trans (hmin'.2 w1.cy (List.mem_map_of_mem WordBox.cy hw1)) hle1
  · exact le_trans hle2 (hmax'.2 w2.cy (List.mem_map_of_mem WordBox.cy hw2))

theorem cluster_by_y_row_y_in_member_range_witness :
    (1:ℚ) ≤ 20 ∧ ((⟨20, [⟨"X1", 10, 20, 0, 0, 0, 0⟩]⟩ : RowCluster) ∈
        cluster_by_y [⟨"X1", 10, 20, 0, 0, 0, 0⟩] 18) ∧
      ((20:ℚ) ≤ 20 ∧ (20:ℚ) ≤ 20) := by
  refine ⟨by norm_num, by decide, ?_⟩
  exact cluster_by_y_row_y_in_member_range [⟨"X1", 10, 20, 0, 0, 0, 0⟩] 18
    ⟨20, [⟨"X1", 10, 20, 0, 0, 0, 0⟩]⟩ (by decide) 20 20 (by decide) (by decide)

/-! ## C6: order-independence of the row partition

The cluster list produced by `cluster_by_y` is shown to depend on the input
word list only through its multiset: permuting the input permutes nothing of
the partition (each row keeps the same reference `row_y` and the same
multiset of member words).  The proof factors the greedy sweep into maximal
runs of equal `cy`; a run is always absorbed into a single cluster. -/

def sorted_cy (l : List WordBox) : Prop := l.Pairwise (fun a b => a.cy ≤ b.cy)

/-- The identity of a cluster for partition comparison: its reference `row_y`
and the multiset of its member words. -/
def cluster_key (c : RowCluster) : ℚ × Multiset WordBox :=
  (c.row_y, (c.words : Multiset WordBox))

/-- Split off the maximal leading run of words whose `cy` equals `v`. -/
def split_run (v : ℚ) : List WordBox → List WordBox × List WordBox
  | [] => ([], [])
  | w :: ws =>
    if w.cy = v then ((w :: (split_run v ws).1), (split_run v ws).2)
    else ([], w :: ws)

theorem split_run_append (v : ℚ) (l : List WordBox) :
    (split_run v l).1 ++ (split_run v l).2 = l := by
  induction l with
  | nil => simp [split_run]
  | cons w ws ih =>
    by_cases h : w.cy = v
    · simp [split_run, h, ih]
    · simp [split_run, h]

theorem split_run_fst_cy (v : ℚ) (l : List WordBox) :
    ∀ w ∈ (split_run v l).1, w.cy = v := by
  induction l with
  | nil => simp [split_run]
  | cons w ws ih =>
    by_cases h : w.cy = v
    · simp only [split_run, if_pos h]
      intro x hx
      rcases List.mem_cons.mp hx with h1 | h2
      · exact h1 ▸ h
      · exact ih x h2
    · simp [split_run, h]

theorem sorted_cy_head_le (w : WordBox) (l : List WordBox)
    (hs : sorted_cy (w :: l)) : ∀ x ∈ w :: l, w.cy ≤ x.cy := by
  intro x hx
  rcases List.mem_cons.mp hx with h1 | h2
  · exact h1 ▸ le_refl _
  · exact (List.pairwise_cons.mp hs).1 x h2

theorem split_run_fst_filter (v : ℚ) :
    ∀ (l : List WordBox), sorted_cy l → (∀ x ∈ l, v ≤ x.cy) →
      (split_run v l).1 = l.filter (fun x => decide (x.cy = v)) := by
  intro l
  induction l with
  | nil => simp [split_run]
  | cons w ws ih =>
    intro hs hv
    by_cases h : w.cy = v
    · rw [List.filter_cons_of_pos (by simp [h])]
      simp only [split_run, if_pos h]
      rw [ih (List.pairwise_cons.mp hs).2 (fun x hx => hv x (List.mem_cons_of_mem w hx))]
    · have hlt : v < w.cy := lt_of_le_of_ne (hv w (List.mem_cons_self w ws)) (fun e => h e.symm)
      have hnone : ∀ x ∈ w :: ws, ¬(x.cy = v) := by
        intro x hx
        have := sorted_cy_head_le w ws hs x hx
        exact fun e => absurd (e ▸ this) (not_le.mpr hlt)
      rw [List.filter_eq_nil_iff.mpr (fun a ha => by simp [hnone a ha])]
      simp [split_run, h]

theorem split_run_snd_filter (v : ℚ) :
    ∀ (l : List WordBox), sorted_cy l → (∀ x ∈ l, v ≤ x.cy) →
      (split_run v l).2 = l.filter (fun x => !decide (x.cy = v)) := by
  intro l
  induction l with
  | nil => simp [split_run]
  | cons w ws ih =>
    intro hs hv
    by_cases h : w.cy = v
    · rw [List.filter_cons_of_neg (by simp [h])]
      simp only [split_run, if_pos h]
      rw [ih (List.pairwise_cons.mp hs).2 (fun x hx => hv x (List.mem_cons_of_mem w hx))]
    · have hlt : v < w.cy := lt_of_le_of_ne (hv w (List.mem_cons_self w ws)) (fun e => h e.symm)
      have hnone : ∀ x ∈ w :: ws, ¬(x.cy = v) := by
        intro x hx
        have := sorted_cy_head_le w ws hs x hx
        exact fun e => absurd (e ▸ this) (not_le.mpr hlt)
      rw [List.filter_eq_self.mpr (fun a ha => by simp [hnone a ha])]
      simp [split_run, h]

theorem py_abs_nonneg (x : ℚ) : 0 ≤ py_abs x := by
  rw [py_abs_eq_abs]; exact abs_nonneg x

theorem py_abs_mean_step (ρ v th : ℚ) (n : ℕ) (h : py_abs (v - ρ) ≤ th) :
    py_abs (v - (ρ * n + v) / (n + 1)) ≤ th := by
  rw [py_abs_eq_abs] at h ⊢
  have hn : (0:ℚ) < (n : ℚ) + 1 := by positivity
  have hrw : v - (ρ * n + v) / (n + 1) = (n : ℚ) / (n + 1) * (v - ρ) := by
    field_simp
    ring
  rw [hrw, abs_mul, abs_of_nonneg (by positivity : (0:ℚ) ≤ (n:ℚ)/(n+1))]
  have h1 : (n : ℚ) / (n + 1) ≤ 1 := by
    rw [div_le_one hn]; linarith
  nlinarith [abs_nonneg (v - ρ)]

/-- Absorbing an entire equal-`cy` run into the current cluster: once the
first word of the run is within threshold of the running mean, the whole run
joins, and the resulting mean only depends on the run's length and value. -/
theorem cluster_step_absorb (th : ℚ) :
    ∀ (r : List WordBox), r ≠ [] → ∀ (v : ℚ), (∀ x ∈ r, x.cy = v) →
      ∀ (cur : RowCluster), py_abs (v - cur.row_y) ≤ th → ∀ (rest : List WordBox),
      cluster_step th cur (r ++ rest) =
        cluster_step th
          ⟨(cur.row_y * cur.words.length + v * r.length) / (cur.words.length + r.length),
           cur.words ++ r⟩ rest := by
  intro r
  induction r with
  | nil => intro h; exact absurd rfl h
  | cons w r' ih =>
    intro _ v hcy cur hjoin rest
    have hw : w.cy = v := hcy w (List.mem_cons_self w r')
    have hj : py_abs (w.cy - cur.row_y) ≤ th := by rw [hw]; exact hjoin
    by_cases hr' : r' = []
    · subst hr'
      simp only [List.cons_append, List.nil_append, cluster_step, if_pos hj]
      simp [hw, List.length_cons]
    · rw [List.cons_append]
      simp only [cluster_step, if_pos hj]
      rw [ih hr' v (fun x hx => hcy x (List.mem_cons_of_mem w hx))
            ⟨(cur.row_y * cur.words.length + w.cy) / (cur.words.length + 1),
             cur.words ++ [w]⟩
            (by simpa [hw] using py_abs_mean_step cur.row_y v th cur.words.length hjoin)
            rest]
      refine congrArg (fun st => cluster_step th st rest) ?_
      rw [RowCluster.mk.injEq]
      refine ⟨?_, by simp⟩
      simp only [List.length_append, List.length_cons, List.length_nil, Nat.add_zero]
      rw [hw]
      have hn1 : ((cur.words.length : ℚ) + 1) ≠ 0 := by positivity
      have hn2 : ((cur.words.length : ℚ) + 1 + (r'.length : ℚ)) ≠ 0 := by positivity
      have hn3 : ((cur.words.length : ℚ) + ((r'.length : ℚ) + 1)) ≠ 0 := by positivity
      push_cast
      field_simp
      ring

/-- Starting a new cluster on an equal-`cy` run: if the run's value is out of
threshold, the current cluster is emitted and the whole run forms the new
current cluster, whose mean is exactly the run value. -/
theorem cluster_step_newrun (th : ℚ) (hth : 0 ≤ th) :
    ∀ (r : List WordBox), r ≠ [] → ∀ (v : ℚ), (∀ x ∈ r, x.cy = v) →
      ∀ (cur : RowCluster), ¬ py_abs (v - cur.row_y) ≤ th → ∀ (rest : List WordBox),
      cluster_step th cur (r ++ rest) = cur :: cluster_step th ⟨v, r⟩ rest := by
  intro r hne v hcy cur hfar rest
  match r, hne with
  | w :: r', _ =>
    have hw : w.cy = v := hcy w (List.mem_cons_self w r')
    have hj : ¬ py_abs (w.cy - cur.row_y) ≤ th := by rw [hw]; exact hfar
    rw [List.cons_append]
    simp only [cluster_step, if_neg hj]
    by_cases hr' : r' = []
    · subst hr'
      simp [hw]
    · rw [cluster_step_absorb th r' hr' v (fun x hx => hcy x (List.mem_cons_of_mem w hx))
            ⟨w.cy, [w]⟩ (by simp [hw, py_abs, hth]) rest]
      refine congrArg (fun c => cur :: c) ?_
      refine congrArg (fun st => cluster_step th st rest) ?_
      rw [RowCluster.mk.injEq]
      refine ⟨?_, by simp⟩
      rw [hw]
      have hn : ((1:ℚ) + (r'.length : ℚ)) ≠ 0 := by positivity
      simp only [List.length_singleton]
      push_cast
      field_simp
      ring

/-- Key step for C6: on sorted inputs that are permutations of each other,
the greedy sweep produces the same list of (row_y, member multiset) pairs,
whatever the interleaving of equal-`cy` words.  (`th ≥ 0` here; the negative
threshold degenerate case is handled separately.) -/
theorem cluster_step_perm_inv (th : ℚ) (hth : 0 ≤ th) :
    ∀ (N : ℕ) (s1 s2 : List WordBox) (cur1 cur2 : RowCluster),
      s1.length ≤ N → s1.Perm s2 → sorted_cy s1 → sorted_cy s2 →
      cur1.row_y = cur2.row_y →
      (cur1.words : Multiset WordBox) = (cur2.words : Multiset WordBox) →
      (cluster_step th cur1 s1).map cluster_key =
        (cluster_step th cur2 s2).map cluster_key := by
  intro N
  induction N with
  | zero =>
    intro s1 s2 cur1 cur2 hlen hperm _ _ hy hw
    have h1 : s1 = [] := List.length_eq_zero.mp (Nat.le_zero.mp hlen)
    subst h1
    have h2 : s2 = [] := hperm.symm.eq_nil
    subst h2
    simp [cluster_step, cluster_key, hy, hw]
  | succ N ih =>
    intro s1 s2 cur1 cur2 hlen hperm hs1 hs2 hy hw
    cases s1 with
    | nil =>
      have h2 : s2 = [] := hperm.symm.eq_nil
      subst h2
      simp [cluster_step, cluster_key, hy, hw]
    | cons w t =>
      have hv1 : ∀ x ∈ w :: t, w.cy ≤ x.cy := sorted_cy_head_le w t hs1
      have hv2 : ∀ x ∈ s2, w.cy ≤ x.cy := fun x hx => hv1 x (hperm.mem_iff.mpr hx)
      have hf1 := split_run_fst_filter w.cy (w :: t) hs1 hv1
      have hg1 := split_run_snd_filter w.cy (w :: t) hs1 hv1
      have hf2 := split_run_fst_filter w.cy s2 hs2 hv2
      have hg2 := split_run_snd_filter w.cy s2 hs2 hv2
      have happ1 : (split_run w.cy (w :: t)).1 ++ (split_run w.cy (w :: t)).2 = w :: t :=
        split_run_append w.cy (w :: t)
      have happ2 : (split_run w.cy s2).1 ++ (split_run w.cy s2).2 = s2 :=
        split_run_append w.cy s2
      have hrperm : (split_run w.cy (w :: t)).1.Perm (split_run w.cy s2).1 := by
        rw [hf1, hf2]; exact hperm.filter _
      have hrestperm : (split_run w.cy (w :: t)).2.Perm (split_run w.cy s2).2 := by
        rw [hg1, hg2]; exact hperm.filter _
      have hr1ne : (split_run w.cy (w :: t)).1 ≠ [] := by
        have hwmem : w ∈ (split_run w.cy (w :: t)).1 := by
          rw [hf1]
          exact List.mem_filter.mpr ⟨List.mem_cons_self w t, by simp⟩
        exact List.ne_nil_of_mem hwmem
      have hr2ne : (split_run w.cy s2).1 ≠ [] := by
        intro h
        rw [h] at hrperm
        exact hr1ne hrperm.eq_nil
      have hcy1 : ∀ x ∈ (split_run w.cy (w :: t)).1, x.cy = w.cy :=
        split_run_fst_cy w.cy (w :: t)
      have hcy2 : ∀ x ∈ (split_run w.cy s2).1, x.cy = w.cy :=
        split_run_fst_cy w.cy s2
      have hsrest1 : sorted_cy (split_run w.cy (w :: t)).2 := by
        rw [hg1]; exact List.Pairwise.filter _ hs1
      have hsrest2 : sorted_cy (split_run w.cy s2).2 := by
        rw [hg2]; exact List.Pairwise.filter _ hs2
      have hlenr : (split_run w.cy (w :: t)).1.length = (split_run w.cy s2).1.length :=
        hrperm.length_eq
      have hlenrest : (split_run w.cy (w :: t)).2.length ≤ N := by
        have h1 : (split_run w.cy (w :: t)).1.length + (split_run w.cy (w :: t)).2.length
            = (w :: t).length := by
          rw [← List.length_append, happ1]
        have h2 : 0 < (split_run w.cy (w :: t)).1.length := List.length_pos.mpr hr1ne
        have h3 : (w :: t).length ≤ N + 1 := hlen
        omega
      have hwperm : cur1.words.Perm cur2.words := Multiset.coe_eq_coe.mp hw
      have hnw : cur1.words.length = cur2.words.length := hwperm.length_eq
      have hjoin2 : ∀ {b : Prop}, (py_abs (w.cy - cur1.row_y) ≤ th → b) →
          py_abs (w.cy - cur2.row_y) ≤ th → b := by
        rw [hy]; exact fun h hb => h hb
      by_cases hjoin : py_abs (w.cy - cur1.row_y) ≤ th
      · rw [← happ1, ← happ2]
        rw [cluster_step_absorb th _ hr1ne w.cy hcy1 cur1 hjoin _]
        rw [cluster_step_absorb th _ hr2ne w.cy hcy2 cur2 (by rw [← hy]; exact hjoin) _]
        refine ih _ _ _ _ hlenrest hrestperm hsrest1 hsrest2 ?_ ?_
        · simp only
          rw [hy, hnw, hlenr]
        · simp only
          exact Multiset.coe_eq_coe.mpr (hwperm.append hrperm)
      · rw [← happ1, ← happ2]
        rw [cluster_step_newrun th hth _ hr1ne w.cy hcy1 cur1 hjoin _]
        rw [cluster_step_newrun th hth _ hr2ne w.cy hcy2 cur2 (by rw [← hy]; exact hjoin) _]
        simp only [List.map_cons]
        rw [show cluster_key cur1 = cluster_key cur2 by simp [cluster_key, hy, hw]]
        refine congrArg _ ?_
        exact ih _ _ ⟨w.cy, (split_run w.cy (w :: t)).1⟩ ⟨w.cy, (split_run w.cy s2).1⟩
          hlenrest hrestperm hsrest1 hsrest2 rfl (Multiset.coe_eq_coe.mpr hrperm)

/-- Degenerate case: a negative threshold makes every word its own cluster. -/
theorem cluster_step_neg (th : ℚ) (hth : th < 0) :
    ∀ (l : List WordBox) (cur : RowCluster),
      cluster_step th cur l = cur :: l.map (fun w => ⟨w.cy, [w]⟩) := by
  intro l
  induction l with
  | nil => intro cur; simp [cluster_step]
  | cons w ws ih =>
    intro cur
    have hno : ¬ py_abs (w.cy - cur.row_y) ≤ th :=
      fun h => absurd (lt_of_le_of_lt h hth) (not_lt.mpr (py_abs_nonneg _))
    simp only [cluster_step, if_neg hno, List.map_cons]
    rw [ih]

/-- The first run of a sorted list is absorbed into the initial cluster. -/
theorem cluster_by_y_start (th : ℚ) (hth : 0 ≤ th) (w : WordBox) (t : List WordBox) :
    cluster_step th ⟨w.cy, [w]⟩ t =
      cluster_step th ⟨w.cy, w :: (split_run w.cy t).1⟩ (split_run w.cy t).2 := by
  by_cases hr : (split_run w.cy t).1 = []
  · have happ := split_run_append w.cy t
    rw [hr] at happ
    simp only [List.nil_append] at happ
    rw [hr, happ]
  · have happ := split_run_append w.cy t
    conv_lhs => rw [← happ]
    rw [cluster_step_absorb th _ hr w.cy (split_run_fst_cy w.cy t) ⟨w.cy, [w]⟩
          (by simp [py_abs, hth]) _]
    refine congrArg (fun st => cluster_step th st (split_run w.cy t).2) ?_
    rw [RowCluster.mk.injEq]
    refine ⟨?_, by simp⟩
    simp only [List.length_singleton]
    have hn : ((1:ℚ) + ((split_run w.cy t).1.length : ℚ)) ≠ 0 := by positivity
    push_cast
    field_simp
    ring

/-- For sorted permutations the head `cy` values agree (both are the minimum). -/
theorem sorted_heads_cy_eq (w1 w2 : WordBox) (t1 t2 : List WordBox)
    (hperm : (w1 :: t1).Perm (w2 :: t2)) (hs1 : sorted_cy (w1 :: t1))
    (hs2 : sorted_cy (w2 :: t2)) : w1.cy = w2.cy := by
  have h1 : w1.cy ≤ w2.cy :=
    sorted_cy_head_le w1 t1 hs1 w2 (hperm.mem_iff.mpr (List.mem_cons_self w2 t2))
  have h2 : w2.cy ≤ w1.cy :=
    sorted_cy_head_le w2 t2 hs2 w1 (hperm.mem_iff.mp (List.mem_cons_self w1 t1))
  exact le_antisymm h1 h2

theorem sorted_cy_sort (ws : List WordBox) : sorted_cy (sort_by_cy ws) :=
  @List.sorted_insertionSort WordBox (fun a b => a.cy ≤ b.cy) (fun _ _ => inferInstance)
    ⟨fun a b => le_total a.cy b.cy⟩ ⟨fun _ _ _ h1 h2 => le_trans h1 h2⟩ ws

theorem perm_sort_by_cy (ws : List WordBox) : (sort_by_cy ws).Perm ws :=
  List.perm_insertionSort _ ws

theorem split_run_cons_self (w : WordBox) (t : List WordBox) :
    split_run w.cy (w :: t) = (w :: (split_run w.cy t).1, (split_run w.cy t).2) := by
  simp [split_run]

theorem cluster_by_y_eq_nil (ws : List WordBox) (th : ℚ)
    (h : sort_by_cy ws = []) : cluster_by_y ws th = [] := by
  unfold cluster_by_y
  rw [h]

theorem cluster_by_y_eq_step (ws : List WordBox) (th : ℚ) (w : WordBox)
    (t : List WordBox) (h : sort_by_cy ws = w :: t) :
    cluster_by_y ws th = cluster_step th ⟨w.cy, [w]⟩ t := by
  unfold cluster_by_y
  rw [h]

theorem cluster_by_y_perm_inv_aux (th : ℚ) (hpos : 0 ≤ th)
    (w1 w2 : WordBox) (t1 t2 : List WordBox)
    (hperm : (w1 :: t1).Perm (w2 :: t2))
    (hs1 : sorted_cy (w1 :: t1)) (hs2 : sorted_cy (w2 :: t2)) :
    (cluster_step th ⟨w1.cy, [w1]⟩ t1).map cluster_key =
      (cluster_step th ⟨w2.cy, [w2]⟩ t2).map cluster_key := by
  have hcyeq : w1.cy = w2.cy := sorted_heads_cy_eq w1 w2 t1 t2 hperm hs1 hs2
  rw [cluster_by_y_start th hpos w1 t1, cluster_by_y_start th hpos w2 t2]
  rw [← hcyeq]
  have e1 := split_run_cons_self w1 t1
  have e2 : split_run w1.cy (w2 :: t2) = (w2 :: (split_run w1.cy t2).1, (split_run w1.cy t2).2) := by
    rw [hcyeq]
    exact split_run_cons_self w2 t2
  have hv1 : ∀ x ∈ w1 :: t1, w1.cy ≤ x.cy := sorted_cy_head_le w1 t1 hs1
  have hv2 : ∀ x ∈ w2 :: t2, w1.cy ≤ x.cy := fun x hx => hv1 x (hperm.mem_iff.mpr hx)
  have hf1 := split_run_fst_filter w1.cy (w1 :: t1) hs1 hv1
  have hg1 := split_run_snd_filter w1.cy (w1 :: t1) hs1 hv1
  have hf2 := split_run_fst_filter w1.cy (w2 :: t2) hs2 hv2
  have hg2 := split_run_snd_filter w1.cy (w2 :: t2) hs2 hv2
  have hrperm : (split_run w1.cy (w1 :: t1)).1.Perm (split_run w1.cy (w2 :: t2)).1 := by
    rw [hf1, hf2]; exact hperm.filter _
  have hrestperm : (split_run w1.cy (w1 :: t1)).2.Perm (split_run w1.cy (w2 :: t2)).2 := by
    rw [hg1, hg2]; exact hperm.filter _
  have hsrest1 : sorted_cy (split_run w1.cy (w1 :: t1)).2 := by
    rw [hg1]; exact List.Pairwise.filter _ hs1
  have hsrest2 : sorted_cy (split_run w1.cy (w2 :: t2)).2 := by
    rw [hg2]; exact List.Pairwise.filter _ hs2
  have goal := cluster_step_perm_inv th hpos (split_run w1.cy (w1 :: t1)).2.length
    (split_run w1.cy (w1 :: t1)).2 (split_run w1.cy (w2 :: t2)).2
    ⟨w1.cy, (split_run w1.cy (w1 :: t1)).1⟩ ⟨w1.cy, (split_run w1.cy (w2 :: t2)).1⟩
    (le_refl _) hrestperm hsrest1 hsrest2 rfl (Multiset.coe_eq_coe.mpr hrperm)
  rw [e1, e2] at goal
  exact goal

/-- C6: for every fixed word list and threshold, cluster_by_y produces the
same cluster assignment (the same partition of words into rows, each row
keeping its reference row_y) regardless of the order in which the input
words are given; clustering is a pure function of the word multiset and the
threshold.  The partition is compared as the multiset of
(row_y, member-word multiset) pairs. -/
theorem cluster_by_y_order_independent (th : ℚ) (ws1 ws2 : List WordBox)
    (h : ws1.Perm ws2) :
    (↑((cluster_by_y ws1 th).map cluster_key) : Multiset (ℚ × Multiset WordBox)) =
      ↑((cluster_by_y ws2 th).map cluster_key) := by
  have hs1 : sorted_cy (sort_by_cy ws1) := sorted_cy_sort ws1
  have hs2 : sorted_cy (sort_by_cy ws2) := sorted_cy_sort ws2
  have hperm : (sort_by_cy ws1).Perm (sort_by_cy ws2) :=
    ((perm_sort_by_cy ws1).trans h).trans (perm_sort_by_cy ws2).symm
  rcases le_or_lt 0 th with hpos | hneg
  · rcases e1 : sort_by_cy ws1 with _ | ⟨w1, t1⟩
    · rw [e1] at hperm
      have h2 : sort_by_cy ws2 = [] := hperm.symm.eq_nil
      rw [cluster_by_y_eq_nil ws1 th e1, cluster_by_y_eq_nil ws2 th h2]
    · rcases e2 : sort_by_cy ws2 with _ | ⟨w2, t2⟩
      · rw [e1, e2] at hperm
        exact absurd hperm.eq_nil (by simp)
      · rw [cluster_by_y_eq_step ws1 th w1 t1 e1, cluster_by_y_eq_step ws2 th w2 t2 e2]
        simp only [e1, e2] at hperm hs1 hs2
        rw [cluster_by_y_perm_inv_aux th hpos w1 w2 t1 t2 hperm hs1 hs2]
  · rcases e1 : sort_by_cy ws1 with _ | ⟨w1, t1⟩
    · rw [e1] at hperm
      have h2 : sort_by_cy ws2 = [] := hperm.symm.eq_nil
      rw [cluster_by_y_eq_nil ws1 th e1, cluster_by_y_eq_nil ws2 th h2]
    · rcases e2 : sort_by_cy ws2 with _ | ⟨w2, t2⟩
      · rw [e1, e2] at hperm
        exact absurd hperm.eq_nil (by simp)
      · rw [cluster_by_y_eq_step ws1 th w1 t1 e1, cluster_by_y_eq_step ws2 th w2 t2 e2]
        simp only [e1, e2] at hperm
        rw [cluster_step_neg th hneg, cluster_step_neg th hneg]
        have hmap : ∀ (w : WordBox) (t : List WordBox),
            (((⟨w.cy, [w]⟩ : RowCluster) :: t.map (fun x => ⟨x.cy, [x]⟩)).map cluster_key) =
              (w :: t).map (fun x => (x.cy, (↑[x] : Multiset WordBox))) := by
          intro w t
          simp [cluster_key, List.map_map]
        rw [hmap, hmap]
        exact Multiset.coe_eq_coe.mpr (hperm.map _)

theorem cluster_by_y_order_independent_witness :
    ([⟨"a", 0, 10, 0, 0, 0, 0⟩, ⟨"b", 0, 0, 0, 0, 0, 0⟩] : List WordBox).Perm
        [⟨"b", 0, 0, 0, 0, 0, 0⟩, ⟨"a", 0, 10, 0, 0, 0, 0⟩] ∧
      (↑((cluster_by_y [⟨"a", 0, 10, 0, 0, 0, 0⟩, ⟨"b", 0, 0, 0, 0, 0, 0⟩] 18).map
          cluster_key) : Multiset (ℚ × Multiset WordBox)) =
        ↑((cluster_by_y [⟨"b", 0, 0, 0, 0, 0, 0⟩, ⟨"a", 0, 10, 0, 0, 0, 0⟩] 18).map
          cluster_key) :=
  ⟨by decide, cluster_by_y_order_independent 18 _ _ (by decide)⟩

/-! ## Candidate records and continuation propagation (e055_extractor.py)

A candidate record is a Python dict; in every record built by
`_extract_page_candidate_rows` the keys `page`, `section_index`,
`block_index`, `row_y`, `row_x`, `model_x`, `機器器具` and `相当型番` are
always present, so the record is embedded as a structure with exactly those
fields (`equipment` stands for the key `機器器具`, `model` for `相当型番`).  In-place mutation is embedded as functional update of the list. -/

structure Cand where
  page : ℤ
  section_index : ℤ
  block_index : ℤ
  row_y : ℚ
  row_x : ℚ
  model_x : ℚ
  equipment : String
  model : String
deriving DecidableEq, Repr

instance : Inhabited Cand := ⟨⟨0, 0, 0, 0, 0, 0, "", ""⟩⟩

/-- `bool(str(row.get(key, "")).strip())` — the "field is non-empty" test. -/
def truthy (s : String) : Bool := !(py_strip s).data.isEmpty

/-- `_resolve_model_x(source, fallback)` (e055_extractor.py lines 384-390):
returns `source["model_x"]`, falling back through `row_x` and the fallback
record when keys are missing.  Every record built by the extractor carries
`model_x`, so the chain collapses to the `model_x` field (and `float()` on a
float cannot fail). -/
def resolve_model_x (source : Cand) : ℚ := source.model_x

/-- Indices (into the record list) of the rows whose `row_y` equals `y` —
the `rows_by_y` grouping of `_propagate_equipment_in_section` (built once,
before the sweep, from the input records; `row_y` is never mutated). -/
def group_idx (cs : List Cand) (y : ℚ) : List ℕ :=
  (List.range cs.length).filter (fun i => decide ((cs.getD i default).row_y = y))

/-- `sorted(rows_by_y.keys())`: the distinct `row_y` values in ascending
order (dict keys are in first-occurrence order before sorting). -/
def sorted_ys (cs : List Cand) : List ℚ :=
  (py_dedup (cs.map (fun c => c.row_y))).insertionSort (fun a b => a ≤ b)

/-- `sorted(rows, key=lambda item: float(item.get("row_x", 0.0)))` on a
group, acting on indices (stable). -/
def sort_group_by_row_x (state : List Cand) (idxs : List ℕ) : List ℕ :=
  idxs.insertionSort (fun i j =>
    (state.getD i default).row_x ≤ (state.getD j default).row_x)

def truthy_at (state : List Cand) (i : ℕ) : Bool :=
  truthy (state.getD i default).equipment

/-- The backward search over prior row-groups: the first previous `row_y`
(nearest first — `prev_rev` holds the already-processed values in reverse)
whose group has at least one record with a symbol; the group is returned
sorted by `row_x` and filtered to symbol-bearing rows. -/
def find_prev_source (cs state : List Cand) : List ℚ → Option (ℚ × List ℕ)
  | [] => none
  | py :: more =>
    let prev_rows :=
      (sort_group_by_row_x state (group_idx cs py)).filter (fun i => truthy_at state i)
    if prev_rows.isEmpty then find_prev_source cs state more
    else some (py, prev_rows)

/-- One propagation assignment: copy `機器器具`, `block_index` and
`model_x` (via `_resolve_model_x(source, row)`) from the source record. -/
def assign_from (src tgt : Cand) : Cand :=
  { tgt with
    equipment := src.equipment
    block_index := src.block_index
    model_x := resolve_model_x src }

/-- Positional mapping (equal row counts): assign the i-th current row from
the i-th source row, in `row_x` order. -/
def assign_pairs : List (ℕ × ℕ) → List Cand → List Cand
  | [], state => state
  | (t, s) :: rest, state =>
    assign_pairs rest (state.set t (assign_from (state.getD s default) (state.getD t default)))

/-- Python `min(pool, key=f)`: the first element attaining the minimum. -/
def argmin_first (f : ℕ → ℚ) : List ℕ → ℕ
  | [] => 0
  | x :: xs => xs.foldl (fun best i => if f i < f best then i else best) x

/-- `available_sources.remove(source)`: removes the first element whose
record value equals the chosen source record (Python list.remove compares
dicts by value). -/
def remove_first_eq (state : List Cand) (target : Cand) : List ℕ → List ℕ
  | [] => []
  | j :: rest =>
    if (state.getD j default) = target then rest
    else j :: remove_first_eq state target rest

/-- The unequal-count fallback: approximate bipartite matching by nearest
`model_x`, removing each used source from the available pool (falling back
to the full source list when the pool is exhausted). -/
def match_loop (src_all : List ℕ) : List ℕ → List ℕ → List Cand → List Cand
  | [], _, state => state
  | t :: ts, available, state =>
    let row_mx := resolve_model_x (state.getD t default)
    let pool := if available.isEmpty then src_all else available
    let chosen := argmin_first
      (fun i => py_abs (resolve_model_x (state.getD i default) - row_mx)) pool
    let src := state.getD chosen default
    let state2 := state.set t (assign_from src (state.getD t default))
    let available2 :=
      if available.any (fun j => decide ((state2.getD j default) = src)) then
        remove_first_eq state2 src available
      else available
    match_loop src_all ts available2 state2

/-- One iteration of the row-group sweep of
`_propagate_equipment_in_section` (e055_extractor.py lines 922-962), for
the group at height `y`; `prev_rev` holds the previously processed `row_y`
values, nearest first. -/
def pass1_step (cs : List Cand) (state : List Cand) (prev_rev : List ℚ) (y : ℚ) :
    List Cand :=
  let current := sort_group_by_row_x state (group_idx cs y)
  if current.any (fun i => truthy_at state i) then state
  else
    match find_prev_source cs state prev_rev with
    | none => state
    | some (sy, src_rows) =>
      if 120 < py_abs (y - sy) then state
      else if current.length = src_rows.length then
        assign_pairs (current.zip src_rows) state
      else
        match_loop src_rows current src_rows state

def pass1_go (cs : List Cand) : List ℚ → List ℚ → List Cand → List Cand
  | [], _, state => state
  | y :: rest, prev_rev, state =>
    pass1_go cs rest (y :: prev_rev) (pass1_step cs state prev_rev y)

/-- The row-group propagation pass (first pass) of
`_propagate_equipment_in_section`. -/
def propagate_rows_pass (cs : List Cand) : List Cand :=
  pass1_go cs (sorted_ys cs) [] cs

/-- The forward fill inside one `block_index` group (second pass): walk the
group in (row_y, row_x) order carrying the last non-empty (stripped) symbol. -/
def fill_go (last : String) : List ℕ → List Cand → List Cand
  | [], state => state
  | i :: rest, state =>
    let e := py_strip (state.getD i default).equipment
    if !e.data.isEmpty then fill_go e rest state
    else if !last.data.isEmpty then
      fill_go last rest (state.set i { state.getD i default with equipment := last })
    else fill_go last rest state

/-- Lexicographic `(row_y, row_x)` sort key used inside a block group. -/
def sort_block_group (state : List Cand) (idxs : List ℕ) : List ℕ :=
  idxs.insertionSort (fun i j =>
    (state.getD i default).row_y < (state.getD j default).row_y ∨
      ((state.getD i default).row_y = (state.getD j default).row_y ∧
       (state.getD i default).row_x ≤ (state.getD j default).row_x))

/-- The block-wise forward-fill pass (second pass) of
`_propagate_equipment_in_section` (e055_extractor.py lines 964-978): group
by `block_index` (keys in first-occurrence order), sort each group by
(row_y, row_x), forward-fill empty symbols with the last non-empty one. -/
def propagate_block_fill (state : List Cand) : List Cand :=
  (py_dedup (state.map (fun c => c.block_index))).foldl
    (fun st b =>
      fill_go ""
        (sort_block_group state
          ((List.range state.length).filter
            (fun i => decide ((state.getD i default).block_index = b)))) st)
    state

/-- `_propagate_equipment_in_section(section_candidates)` (e055_extractor.py
lines 915-978): the row-group sweep followed by the block-wise forward fill. -/
def propagate_equipment_in_section (cs : List Cand) : List Cand :=
  propagate_block_fill (propagate_rows_pass cs)

/-! ## C10: frame property of `_propagate_equipment_in_section` -/

theorem getD_set {α : Type} [Inhabited α] (l : List α) (i j : ℕ) (a : α) :
    (l.set i a).getD j default =
      if i = j ∧ i < l.length then a else l.getD j default := by
  induction l generalizing i j with
  | nil => simp [List.set]
  | cons x xs ih =>
    cases i with
    | zero =>
      cases j with
      | zero => simp
      | succ k => simp
    | succ i =>
      cases j with
      | zero => simp
      | succ k =>
        simp only [List.set, List.getD_cons_succ, List.length_cons, ih i k]
        by_cases h : i = k ∧ i < xs.length
        · rw [if_pos h, if_pos ⟨by omega, by omega⟩]
        · rw [if_neg h, if_neg (by omega)]

/-- The fields the claims require `_propagate_equipment_in_section` to leave
untouched: everything except `機器器具` (equipment), `block_index` and
`model_x`. -/
def same_frame (a b : Cand) : Prop :=
  b.page = a.page ∧ b.section_index = a.section_index ∧ b.row_y = a.row_y ∧
    b.row_x = a.row_x ∧ b.model = a.model

theorem same_frame_refl (a : Cand) : same_frame a a := ⟨rfl, rfl, rfl, rfl, rfl⟩

theorem same_frame_trans {a b c : Cand} (h1 : same_frame a b) (h2 : same_frame b c) :
    same_frame a c := by
  obtain ⟨p1, s1, y1, x1, m1⟩ := h1
  obtain ⟨p2, s2, y2, x2, m2⟩ := h2
  exact ⟨p2.trans p1, s2.trans s1, y2.trans y1, x2.trans x1, m2.trans m1⟩

theorem assign_from_frame (src tgt : Cand) : same_frame tgt (assign_from src tgt) := by
  simp [assign_from, same_frame]

/-- Pointwise frame invariant between the input record list and a state. -/
def frame_inv (cs state : List Cand) : Prop :=
  state.length = cs.length ∧ ∀ i, same_frame (cs.getD i default) (state.getD i default)

theorem frame_inv_refl (cs : List Cand) : frame_inv cs cs :=
  ⟨rfl, fun _ => same_frame_refl _⟩

theorem frame_inv_set (cs state : List Cand) (h : frame_inv cs state) (t : ℕ)
    (v : Cand) (hv : same_frame (state.getD t default) v) :
    frame_inv cs (state.set t v) := by
  refine ⟨(List.length_set state t v).trans h.1, fun i => ?_⟩
  rw [getD_set]
  by_cases he : t = i ∧ t < state.length
  · rw [if_pos he]
    exact same_frame_trans (he.1 ▸ h.2 i) (he.1 ▸ hv)
  · rw [if_neg he]
    exact h.2 i

theorem assign_pairs_frame (cs : List Cand) :
    ∀ (pairs : List (ℕ × ℕ)) (state : List Cand), frame_inv cs state →
      frame_inv cs (assign_pairs pairs state) := by
  intro pairs
  induction pairs with
  | nil => intro state h; exact h
  | cons p rest ih =>
    intro state h
    obtain ⟨t, s⟩ := p
    exact ih _ (frame_inv_set cs state h t _ (assign_from_frame _ _))

theorem match_loop_frame (cs : List Cand) (src_all : List ℕ) :
    ∀ (ts available : List ℕ) (state : List Cand), frame_inv cs state →
      frame_inv cs (match_loop src_all ts available state) := by
  intro ts
  induction ts with
  | nil => intro available state h; exact h
  | cons t rest ih =>
    intro available state h
    simp only [match_loop]
    exact ih _ _ (frame_inv_set cs state h t _ (assign_from_frame _ _))

theorem pass1_step_frame (cs : List Cand) (state : List Cand) (prev_rev : List ℚ)
    (y : ℚ) (h : frame_inv cs state) :
    frame_inv cs (pass1_step cs state prev_rev y) := by
  unfold pass1_step
  dsimp only
  by_cases hA : ((sort_group_by_row_x state (group_idx cs y)).any
      fun i => truthy_at state i) = true
  · rw [if_pos hA]; exact h
  · rw [if_neg hA]
    rcases hfind : find_prev_source cs state prev_rev with _ | ⟨sy, src⟩
    · exact h
    · dsimp only
      by_cases hB : 120 < py_abs (y - sy)
      · rw [if_pos hB]; exact h
      · rw [if_neg hB]
        by_cases hC : (sort_group_by_row_x state (group_idx cs y)).length = src.length
        · rw [if_pos hC]; exact assign_pairs_frame cs _ state h
        · rw [if_neg hC]; exact match_loop_frame cs _ _ _ state h

theorem pass1_go_frame (cs : List Cand) :
    ∀ (ys prev_rev : List ℚ) (state : List Cand), frame_inv cs state →
      frame_inv cs (pass1_go cs ys prev_rev state) := by
  intro ys
  induction ys with
  | nil => intro prev_rev state h; exact h
  | cons y rest ih =>
    intro prev_rev state h
    exact ih _ _ (pass1_step_frame cs state prev_rev y h)

theorem fill_go_frame (cs : List Cand) :
    ∀ (idxs : List ℕ) (last : String) (state : List Cand), frame_inv cs state →
      frame_inv cs (fill_go last idxs state) := by
  intro idxs
  induction idxs with
  | nil => intro last state h; exact h
  | cons i rest ih =>
    intro last state h
    simp only [fill_go]
    split
    · exact ih _ _ h
    · split
      · refine ih _ _ (frame_inv_set cs state h i _ ?_)
        simp [same_frame]
      · exact ih _ _ h

theorem foldl_preserves {β : Type} (P : List Cand → Prop)
    (f : List Cand → β → List Cand) (hf : ∀ st b, P st → P (f st b)) :
    ∀ (keys : List β) (st : List Cand), P st → P (keys.foldl f st) := by
  intro keys
  induction keys with
  | nil => intro st h; exact h
  | cons b rest ih => intro st h; exact ih _ (hf st b h)

theorem propagate_block_fill_frame (cs : List Cand) (state : List Cand)
    (h : frame_inv cs state) : frame_inv cs (propagate_block_fill state) := by
  unfold propagate_block_fill
  exact foldl_preserves (frame_inv cs) _
    (fun st b hst => fill_go_frame cs _ "" st hst) _ state h

/-- C10: `_propagate_equipment_in_section` mutates only the
equipment-symbol (機器器具), `block_index` and `model_x` fields of its
input records: the list keeps its length, and at every position the model
text (相当型番), `row_y`, `row_x`, `page` and `section_index` are identical
before and after the call. -/
theorem propagate_equipment_in_section_frame (cs : List Cand) :
    (propagate_equipment_in_section cs).length = cs.length ∧
      ∀ i, i < cs.length →
        ((propagate_equipment_in_section cs).getD i default).model =
            (cs.getD i default).model ∧
          ((propagate_equipment_in_section cs).getD i default).row_y =
            (cs.getD i default).row_y ∧
          ((propagate_equipment_in_section cs).getD i default).row_x =
            (cs.getD i default).row_x ∧
          ((propagate_equipment_in_section cs).getD i default).page =
            (cs.getD i default).page ∧
          ((propagate_equipment_in_section cs).getD i default).section_index =
            (cs.getD i default).section_index := by
  have h : frame_inv cs (propagate_equipment_in_section cs) :=
    propagate_block_fill_frame cs _
      (pass1_go_frame cs _ _ cs (frame_inv_refl cs))
  refine ⟨h.1, fun i _ => ?_⟩
  obtain ⟨hp, hs, hy, hx, hm⟩ := h.2 i
  exact ⟨hm, hy, hx, hp, hs⟩

theorem propagate_equipment_in_section_frame_witness :
    ((1:ℕ) < 2) ∧
      ((propagate_equipment_in_section
          [⟨1, 0, 0, 0, 0, 0, "L1", "M-1"⟩, ⟨1, 0, 0, 500, 1000, 1000, "", "N-2"⟩]).getD
            1 default).model = "N-2" := by
  refine ⟨by decide, ?_⟩
  exact (propagate_equipment_in_section_frame
    [⟨1, 0, 0, 0, 0, 0, "L1", "M-1"⟩, ⟨1, 0, 0, 500, 1000, 1000, "", "N-2"⟩] |>.2
    1 (by decide)).1

/-! ## C1: distance bound of the row-group propagation pass -/

/-- Which positions an assignment pass can change. -/
theorem assign_pairs_changed :
    ∀ (pairs : List (ℕ × ℕ)) (state : List Cand) (j : ℕ),
      ((assign_pairs pairs state).getD j default = state.getD j default) ∨
        j ∈ pairs.map Prod.fst := by
  intro pairs
  induction pairs with
  | nil => intro state j; exact Or.inl rfl
  | cons p rest ih =>
    intro state j
    obtain ⟨t, s⟩ := p
    simp only [assign_pairs]
    rcases ih (state.set t (assign_from (state.getD s default) (state.getD t default))) j
      with heq | hmem
    · rw [heq, getD_set]
      by_cases he : t = j ∧ t < state.length
      · exact Or.inr (by simp [he.1.symm])
      · rw [if_neg he]
        exact Or.inl rfl
    · exact Or.inr (List.mem_cons_of_mem _ hmem)

theorem match_loop_changed (src_all : List ℕ) :
    ∀ (ts available : List ℕ) (state : List Cand) (j : ℕ),
      ((match_loop src_all ts available state).getD j default = state.getD j default) ∨
        j ∈ ts := by
  intro ts
  induction ts with
  | nil => intro available state j; exact Or.inl rfl
  | cons t rest ih =>
    intro available state j
    simp only [match_loop]
    rcases ih _ _ j with heq | hmem
    · rw [heq, getD_set]
      by_cases he : t = j ∧ t < state.length
      · exact Or.inr (by simp [he.1.symm])
      · rw [if_neg he]
        exact Or.inl rfl
    · exact Or.inr (List.mem_cons_of_mem _ hmem)

theorem find_prev_source_mem (cs state : List Cand) :
    ∀ (prev_rev : List ℚ) (sy : ℚ) (src : List ℕ),
      find_prev_source cs state prev_rev = some (sy, src) → sy ∈ prev_rev := by
  intro prev_rev
  induction prev_rev with
  | nil => intro sy src h; simp [find_prev_source] at h
  | cons py more ih =>
    intro sy src h
    simp only [find_prev_source] at h
    split at h
    · exact List.mem_cons_of_mem _ (ih sy src h)
    · rw [Option.some.injEq, Prod.mk.injEq] at h
      exact h.1 ▸ List.mem_cons_self py more

theorem mem_group_idx (cs : List Cand) (y : ℚ) (i : ℕ) (h : i ∈ group_idx cs y) :
    i < cs.length ∧ (cs.getD i default).row_y = y := by
  simp only [group_idx, List.mem_filter, List.mem_range, decide_eq_true_eq] at h
  exact h

theorem mem_sort_group (state : List Cand) (idxs : List ℕ) (i : ℕ)
    (h : i ∈ sort_group_by_row_x state idxs) : i ∈ idxs :=
  (List.perm_insertionSort _ idxs).mem_iff.mp h

/-- The distance fact the claim requires, as an invariant on a state: if the
record at `i` started with an empty symbol and now has a non-empty one, then
some strictly earlier row-group `row_y` lies within 120px above it. -/
def dist_ok (cs state : List Cand) (i : ℕ) : Prop :=
  py_strip (cs.getD i default).equipment = "" →
  ¬ py_strip ((state.getD i default).equipment) = "" →
  ∃ y' ∈ cs.map (fun c => c.row_y), y' < (cs.getD i default).row_y ∧
    (cs.getD i default).row_y - y' ≤ 120

theorem pass1_step_dist (cs state : List Cand) (prev_rev : List ℚ) (y : ℚ)
    (hprev : ∀ py ∈ prev_rev, py ∈ cs.map (fun c => c.row_y) ∧ py < y)
    (h : ∀ i, dist_ok cs state i) :
    ∀ i, dist_ok cs (pass1_step cs state prev_rev y) i := by
  intro i
  unfold pass1_step
  dsimp only
  by_cases hA : ((sort_group_by_row_x state (group_idx cs y)).any
      fun i => truthy_at state i) = true
  · rw [if_pos hA]; exact h i
  · rw [if_neg hA]
    rcases hfind : find_prev_source cs state prev_rev with _ | ⟨sy, src⟩
    · exact h i
    · dsimp only
      have hsy := hprev sy (find_prev_source_mem cs state prev_rev sy src hfind)
      have hdist : ∀ (hB : ¬ 120 < py_abs (y - sy)), y - sy ≤ 120 := by
        intro hB
        have hpos : 0 < y - sy := by linarith [hsy.2]
        have : py_abs (y - sy) = y - sy := by
          simp [py_abs, not_lt.mpr (le_of_lt hpos)]
        linarith [not_lt.mp hB, this.symm.trans_le (not_lt.mp hB)]
      by_cases hB : 120 < py_abs (y - sy)
      · rw [if_pos hB]; exact h i
      · rw [if_neg hB]
        have htarget : i ∈ sort_group_by_row_x state (group_idx cs y) →
            dist_ok cs (assign_pairs ((sort_group_by_row_x state (group_idx cs y)).zip src) state) i ∧
            dist_ok cs (match_loop src (sort_group_by_row_x state (group_idx cs y)) src state) i := by
          intro hin
          have hgi := mem_group_idx cs y i (mem_sort_group state _ i hin)
          have hgoal : ∃ y' ∈ cs.map (fun c => c.row_y),
              y' < (cs.getD i default).row_y ∧ (cs.getD i default).row_y - y' ≤ 120 := by
            refine ⟨sy, hsy.1, ?_, ?_⟩
            · rw [hgi.2]; exact hsy.2
            · rw [hgi.2]; exact hdist hB
          exact ⟨fun _ _ => hgoal, fun _ _ => hgoal⟩
        by_cases hC : (sort_group_by_row_x state (group_idx cs y)).length = src.length
        · rw [if_pos hC]
          rcases assign_pairs_changed ((sort_group_by_row_x state (group_idx cs y)).zip src)
            state i with heq | hmem
          · intro h1 h2
            rw [heq] at h2
            exact h i h1 h2
          · have hin : i ∈ sort_group_by_row_x state (group_idx cs y) := by
              have := List.map_fst_zip (sort_group_by_row_x state (group_idx cs y)) src
                (le_of_eq hC)
              rw [this] at hmem
              exact hmem
            exact (htarget hin).1
        · rw [if_neg hC]
          rcases match_loop_changed src (sort_group_by_row_x state (group_idx cs y))
            src state i with heq | hmem
          · intro h1 h2
            rw [heq] at h2
            exact h i h1 h2
          · exact (htarget hmem).2

theorem pass1_go_dist (cs : List Cand) :
    ∀ (ys prev_rev : List ℚ) (state : List Cand),
      (∀ py ∈ prev_rev, py ∈ cs.map (fun c => c.row_y)) →
      (∀ py ∈ prev_rev, ∀ z ∈ ys, py < z) →
      ys.Pairwise (· < ·) →
      (∀ z ∈ ys, z ∈ cs.map (fun c => c.row_y)) →
      (∀ i, dist_ok cs state i) →
      ∀ i, dist_ok cs (pass1_go cs ys prev_rev state) i := by
  intro ys
  induction ys with
  | nil => intro prev_rev state _ _ _ _ h; exact h
  | cons y rest ih =>
    intro prev_rev state hmem hlt hpw hys h
    refine ih (y :: prev_rev) _ ?_ ?_ (List.pairwise_cons.mp hpw).2
      (fun z hz => hys z (List.mem_cons_of_mem y hz)) ?_
    · intro py hpy
      rcases List.mem_cons.mp hpy with h1 | h2
      · exact h1 ▸ hys y (List.mem_cons_self y rest)
      · exact hmem py h2
    · intro py hpy z hz
      rcases List.mem_cons.mp hpy with h1 | h2
      · exact h1 ▸ (List.pairwise_cons.mp hpw).1 z hz
      · exact hlt py h2 z (List.mem_cons_of_mem y hz)
    · exact pass1_step_dist cs state prev_rev y
        (fun py hpy => ⟨hmem py hpy, hlt py hpy y (List.mem_cons_self y rest)⟩) h

theorem mem_sorted_ys (cs : List Cand) (z : ℚ) :
    z ∈ sorted_ys cs ↔ z ∈ cs.map (fun c => c.row_y) := by
  unfold sorted_ys
  rw [(List.perm_insertionSort _ _).mem_iff, mem_py_dedup]

theorem sorted_ys_pairwise_lt (cs : List Cand) : (sorted_ys cs).Pairwise (· < ·) := by
  have hsorted : (sorted_ys cs).Pairwise (fun a b : ℚ => a ≤ b) :=
    @List.sorted_insertionSort ℚ (fun a b => a ≤ b) (fun _ _ => inferInstance)
      ⟨fun a b => le_total a b⟩ ⟨fun _ _ _ h1 h2 => le_trans h1 h2⟩ _
  have hnodup : (sorted_ys cs).Nodup :=
    ((List.perm_insertionSort _ _).nodup_iff).mpr (nodup_py_dedup _)
  exact (List.Pairwise.and hsorted hnodup).imp
    (fun hab => lt_of_le_of_ne hab.1 hab.2)

/-- C1 (amended): every record whose symbol was assigned by the row-group
propagation pass of `_propagate_equipment_in_section` lies within 120px of
some strictly earlier row-group height; the subsequent block-wise forward
fill (second pass) is not so bounded. -/
theorem propagate_rows_pass_distance (cs : List Cand) (i : ℕ)
    (h1 : py_strip (cs.getD i default).equipment = "")
    (h2 : ¬ py_strip ((propagate_rows_pass cs).getD i default).equipment = "") :
    ∃ y' ∈ cs.map (fun c => c.row_y), y' < (cs.getD i default).row_y ∧
      (cs.getD i default).row_y - y' ≤ 120 := by
  refine pass1_go_dist cs (sorted_ys cs) [] cs (by simp) (by simp)
    (sorted_ys_pairwise_lt cs) (fun z hz => (mem_sorted_ys cs z).mp hz)
    (fun j hj1 hj2 => absurd hj1 hj2) i h1 h2

set_option maxHeartbeats 2000000 in
theorem propagate_rows_pass_eval_w1 :
    propagate_rows_pass [⟨1, 0, 0, 0, 0, 0, "TP1", "A-1"⟩, ⟨1, 0, 0, 100, 0, 0, "", "B-2"⟩] =
      [⟨1, 0, 0, 0, 0, 0, "TP1", "A-1"⟩, ⟨1, 0, 0, 100, 0, 0, "TP1", "B-2"⟩] := by
  norm_num +decide [propagate_rows_pass, pass1_go, pass1_step, sorted_ys, py_dedup, group_idx,
    sort_group_by_row_x, truthy_at, truthy, py_strip, strip_list, is_py_space,
    find_prev_source, assign_pairs, match_loop, argmin_first, remove_first_eq,
    assign_from, resolve_model_x, py_abs, List.insertionSort, List.orderedInsert,
    List.range, List.range.loop, getD_set]

theorem propagate_rows_pass_distance_witness :
    py_strip (([⟨1, 0, 0, 0, 0, 0, "TP1", "A-1"⟩,
        (⟨1, 0, 0, 100, 0, 0, "", "B-2"⟩ : Cand)].getD 1 default)).equipment = "" ∧
      (¬ py_strip ((propagate_rows_pass [⟨1, 0, 0, 0, 0, 0, "TP1", "A-1"⟩,
          ⟨1, 0, 0, 100, 0, 0, "", "B-2"⟩]).getD 1 default).equipment = "") ∧
      ∃ y' ∈ ([⟨1, 0, 0, 0, 0, 0, "TP1", "A-1"⟩,
          (⟨1, 0, 0, 100, 0, 0, "", "B-2"⟩ : Cand)].map (fun c => c.row_y)),
        y' < (([⟨1, 0, 0, 0, 0, 0, "TP1", "A-1"⟩,
            (⟨1, 0, 0, 100, 0, 0, "", "B-2"⟩ : Cand)].getD 1 default)).row_y ∧
          (([⟨1, 0, 0, 0, 0, 0, "TP1", "A-1"⟩,
            (⟨1, 0, 0, 100, 0, 0, "", "B-2"⟩ : Cand)].getD 1 default)).row_y - y' ≤ 120 := by
  refine ⟨by decide, ?_, ?_⟩
  · simp [propagate_rows_pass_eval_w1, py_strip, strip_list, is_py_space]
  · exact propagate_rows_pass_distance _ 1 (by decide)
      (by simp [propagate_rows_pass_eval_w1, py_strip, strip_list, is_py_space])

set_option maxHeartbeats 2000000 in
/-- C1 (counterexample to the claim as stated): with a symbol-bearing row at
row_y = 0 and a symbol-less row at row_y = 500 in the same block, the full
`_propagate_equipment_in_section` assigns the symbol "L1" to the distant
row through its block-wise forward-fill second pass, even though the only
available source row-group is 500px away — far beyond the 120px bound. -/
theorem propagate_distance_counterexample :
    ((propagate_equipment_in_section [⟨1, 0, 0, 0, 0, 0, "L1", "M-1"⟩,
        ⟨1, 0, 0, 500, 1000, 1000, "", "N-2"⟩]).getD 1 default).equipment = "L1" ∧
      (([⟨1, 0, 0, 0, 0, 0, "L1", "M-1"⟩,
        (⟨1, 0, 0, 500, 1000, 1000, "", "N-2"⟩ : Cand)].getD 1 default)).equipment = "" ∧
      ([⟨1, 0, 0, 0, 0, 0, "L1", "M-1"⟩,
        (⟨1, 0, 0, 500, 1000, 1000, "", "N-2"⟩ : Cand)].map (fun c => c.row_y)) = [0, 500] ∧
      (120 : ℚ) < 500 - 0 := by
  refine ⟨?_, by decide, by decide, by norm_num⟩
  have he : propagate_equipment_in_section [⟨1, 0, 0, 0, 0, 0, "L1", "M-1"⟩,
      ⟨1, 0, 0, 500, 1000, 1000, "", "N-2"⟩] =
      [⟨1, 0, 0, 0, 0, 0, "L1", "M-1"⟩, ⟨1, 0, 0, 500, 1000, 1000, "L1", "N-2"⟩] := by
    norm_num +decide [propagate_equipment_in_section, propagate_block_fill, propagate_rows_pass,
      pass1_go, pass1_step, sorted_ys, py_dedup, group_idx, sort_group_by_row_x,
      truthy_at, truthy, py_strip, strip_list, is_py_space, find_prev_source,
      assign_pairs, match_loop, argmin_first, remove_first_eq, assign_from,
      resolve_model_x, py_abs, fill_go, sort_block_group, List.insertionSort,
      List.orderedInsert, List.range, List.range.loop, getD_set]
  rw [he]
  rfl

/-! ## Line-assist confidence gate (e055_extractor.py lines 415-844)

The two line collectors (`_collect_vector_vertical_lines`, reading the PDF
through pdfplumber, and `_collect_image_vertical_lines`, reading the raster
through OpenCV) are I/O collaborators; exactly as in the repository's own
tests, their outputs — two lists of detected vertical-line x positions —
are taken as parameters of the embedded gate. -/

/-- `LineAssistConfig` (e055_extractor.py lines 57-62). -/
structure LineAssistConfig where
  mode : String
  latency_budget_ms : ℤ
  min_confidence : ℚ
  debug_enabled : Bool
deriving DecidableEq, Repr

/-- `_count_unresolved_equipment` (lines 474-481): rows that carry a model
but no equipment symbol. -/
def count_unresolved_equipment (cs : List Cand) : ℕ :=
  (cs.filter (fun row => truthy row.model && !truthy row.equipment)).length

/-- Python `sum(xs) / len(xs)` (left fold). -/
def list_mean (l : List ℚ) : ℚ := (l.foldl (· + ·) 0) / l.length

/-- The `model_x` values of the rows in one block. -/
def block_model_xs (cs : List Cand) (b : ℤ) : List ℚ :=
  (cs.filter (fun r => decide (r.block_index = b))).map (fun r => resolve_model_x r)

/-- `_average_model_block_alignment_distance` (lines 484-508).  Every row's
own block key is present in `block_centers` with a non-empty value list, so
the two `continue` guards of the source never fire and both emptiness
guards reduce to the candidate list being empty. -/
def average_model_block_alignment_distance (cs : List Cand) : ℚ :=
  if cs.isEmpty then 0
  else
    let distances := cs.map
      (fun r => py_abs (resolve_model_x r - list_mean (block_model_xs cs r.block_index)))
    (distances.foldl (· + ·) 0) / distances.length

/-- `min(range(len(x_centers)), key=lambda idx: abs(x - x_centers[idx]))`. -/
def argmin_center (centers : List ℚ) (x : ℚ) : ℕ :=
  argmin_first (fun i => py_abs (x - centers.getD i 0)) (List.range centers.length)

/-- `_assign_block_indexes_with_centers` (lines 428-438). -/
def assign_block_indexes_with_centers (cs : List Cand) (x_centers : List ℚ) :
    List Cand :=
  cs.map (fun row =>
    if x_centers.isEmpty then { row with block_index := 0 }
    else { row with block_index := (argmin_center x_centers row.row_x : ℤ) })

/-- The clustering loop shared by `_cluster_x_positions` (lines 415-425)
and `_merge_vertical_lines` (lines 684-699): each value joins the current
cluster iff it is within tolerance of the cluster's last element. -/
def cxp_go (tol : ℚ) (last : ℚ) (cur_rev : List ℚ) : List ℚ → List (List ℚ)
  | [] => [cur_rev.reverse]
  | v :: vs =>
    if py_abs (v - last) ≤ tol then cxp_go tol v (v :: cur_rev) vs
    else cur_rev.reverse :: cxp_go tol v [v] vs

/-- `_cluster_x_positions(values, tolerance)` (lines 415-425): sort, chain
into clusters by gap-to-last, return each cluster's mean. -/
def cluster_x_positions (values : List ℚ) (tol : ℚ) : List ℚ :=
  match values.insertionSort (fun a b => a ≤ b) with
  | [] => []
  | v :: vs => (cxp_go tol v [v] vs).map list_mean

/-- `_merge_vertical_lines` (lines 684-699): same clustering, applied to the
concatenation of both sources, with tolerance 18. -/
def merge_vertical_lines (vector_lines image_lines : List ℚ) : List ℚ :=
  match (vector_lines ++ image_lines).insertionSort (fun a b => a ≤ b) with
  | [] => []
  | v :: vs => (cxp_go 18 v [v] vs).map list_mean

def compact_go (last : ℚ) : List ℚ → List ℚ
  | [] => []
  | v :: vs => if 18 < py_abs (v - last) then v :: compact_go v vs else compact_go last vs

def compact_bounds : List ℚ → List ℚ
  | [] => []
  | v :: vs => v :: compact_go v vs

/-- `_build_line_based_blocks` (lines 702-721): section edges plus in-range
vertical lines, compacted within 18px, adjacent pairs at least 70px wide. -/
def build_line_based_blocks (vertical_xs : List ℚ) (x_min x_max : ℚ) :
    List (ℚ × ℚ) :=
  let bounds := ([x_min] ++ vertical_xs.filter (fun x => decide (x_min ≤ x ∧ x ≤ x_max))
      ++ [x_max]).insertionSort (fun a b => a ≤ b)
  let compact := compact_bounds bounds
  ((compact.zip compact.tail).filter (fun p => decide (¬(p.2 - p.1 < 70))))

/-- `_line_assist_confidence` (lines 724-751). -/
def line_assist_confidence (cs : List Cand) (line_blocks : List (ℚ × ℚ))
    (vector_line_count image_line_count baseline_center_count : ℕ) : ℚ :=
  if cs.isEmpty || line_blocks.isEmpty then 0
  else
    let coverage_hits := (cs.filter (fun row =>
      line_blocks.any (fun b => decide (b.1 - 8 ≤ row.row_x ∧ row.row_x ≤ b.2 + 8)))).length
    let coverage := (coverage_hits : ℚ) / ((max cs.length 1 : ℕ) : ℚ)
    let line_strength := min (((vector_line_count + image_line_count : ℕ) : ℚ) / 8) 1
    let block_count_score : ℚ :=
      if 1 ≤ line_blocks.length ∧ line_blocks.length ≤ 8 then 1 else 3/10
    let baseline_alignment : ℚ :=
      if py_abs ((line_blocks.length : ℚ) - ((max baseline_center_count 1 : ℕ) : ℚ)) ≤ 2
      then 1 else 1/2
    let confidence := 45/100 * coverage + 25/100 * line_strength
      + 20/100 * block_count_score + 10/100 * baseline_alignment
    max 0 (min confidence 1)

/-- The line-derived blocks the gate would use. -/
def line_blocks_for (vector_lines image_lines : List ℚ) (x_min x_max : ℚ) :
    List (ℚ × ℚ) :=
  build_line_based_blocks (merge_vertical_lines vector_lines image_lines) x_min x_max

/-- The candidates after re-assigning blocks from the line-derived centers
and re-running propagation — the "assisted" side of the gate's comparison. -/
def assisted_rows_for (vector_lines image_lines : List ℚ) (cs : List Cand)
    (x_min x_max : ℚ) : List Cand :=
  propagate_equipment_in_section
    (assign_block_indexes_with_centers cs
      ((line_blocks_for vector_lines image_lines x_min x_max).map
        (fun b => (b.1 + b.2) / 2)))

/-- Result of the gate: the info flags and the (possibly updated) candidates. -/
structure LineAssistOutcome where
  invoked : Bool
  adopted : Bool
  confidence : ℚ
  rejected_reason : String
  updated : List Cand
deriving Repr

/-- `_apply_line_assist_if_confident` (e055_extractor.py lines 754-844),
with the two collectors' outputs as parameters (the baseline comparison is
run on copies; on adoption only `block_index` is copied back). -/
def apply_line_assist_if_confident (vector_lines image_lines : List ℚ)
    (cs : List Cand) (x_min x_max : ℚ) (baseline_x_centers : List ℚ)
    (config : LineAssistConfig) : LineAssistOutcome :=
  if cs.isEmpty then ⟨false, false, 0, "no_section_candidates", cs⟩
  else
    let line_blocks := line_blocks_for vector_lines image_lines x_min x_max
    let confidence := line_assist_confidence cs line_blocks
      vector_lines.length image_lines.length baseline_x_centers.length
    if confidence < config.min_confidence then
      ⟨true, false, confidence, "confidence_below_threshold", cs⟩
    else if line_blocks.isEmpty then
      ⟨true, false, confidence, "no_line_blocks", cs⟩
    else
      let baseline_rows := propagate_equipment_in_section cs
      let assisted_rows := assisted_rows_for vector_lines image_lines cs x_min x_max
      let unresolved_improved :=
        count_unresolved_equipment assisted_rows < count_unresolved_equipment baseline_rows
      let alignment_improved :=
        average_model_block_alignment_distance assisted_rows + 1 <
          average_model_block_alignment_distance baseline_rows
      if ¬unresolved_improved ∧ ¬alignment_improved then
        ⟨true, false, confidence, "no_quality_gain", cs⟩
      else
        ⟨true, true, confidence, "",
         List.zipWith (fun row arow => { row with block_index := arow.block_index })
           cs assisted_rows⟩

/-- C2 (amended): whenever `_apply_line_assist_if_confident` adopts the
line-derived block assignment, the count of unresolved-symbol rows after
re-running propagation under that assignment is strictly lower than under
the baseline, OR the average model-to-block-centroid distance improves by
more than 1px; adoption never happens with neither improvement, but it can
happen — on alignment improvement alone — with the unresolved count
strictly increased. -/
theorem apply_line_assist_adopt_requires_gain (vector_lines image_lines : List ℚ)
    (cs : List Cand) (x_min x_max : ℚ) (baseline_x_centers : List ℚ)
    (config : LineAssistConfig)
    (h : (apply_line_assist_if_confident vector_lines image_lines cs x_min x_max
        baseline_x_centers config).adopted = true) :
    count_unresolved_equipment (assisted_rows_for vector_lines image_lines cs x_min x_max) <
        count_unresolved_equipment (propagate_equipment_in_section cs) ∨
      average_model_block_alignment_distance
          (assisted_rows_for vector_lines image_lines cs x_min x_max) + 1 <
        average_model_block_alignment_distance (propagate_equipment_in_section cs) := by
  unfold apply_line_assist_if_confident at h
  dsimp only at h
  split at h
  · simp at h
  · split at h
    · simp at h
    · split at h
      · simp at h
      · split at h
        · simp at h
        · rename_i hguard
          rw [not_and_or, not_not, not_not] at hguard
          exact hguard

/-- Concrete two-row section exercising the line-assist gate: a symbol-bearing
row at (row_y 0, row_x 0) and a symbol-less row at (row_y 500, row_x 1000). -/
def cexC2 : List Cand :=
  [⟨1, 0, 0, 0, 0, 0, "A1", "M-1"⟩, ⟨1, 0, 0, 500, 1000, 1000, "", "N-2"⟩]

set_option maxHeartbeats 4000000 in
theorem cexC2_assisted_eval :
    assisted_rows_for [500] [] cexC2 0 1100 =
      [⟨1, 0, 0, 0, 0, 0, "A1", "M-1"⟩, ⟨1, 0, 1, 500, 1000, 1000, "", "N-2"⟩] := by
  norm_num +decide [assisted_rows_for, cexC2, line_blocks_for, build_line_based_blocks,
    merge_vertical_lines, cxp_go, list_mean, compact_bounds, compact_go,
    assign_block_indexes_with_centers, argmin_center, argmin_first,
    propagate_equipment_in_section, propagate_block_fill, propagate_rows_pass,
    pass1_go, pass1_step, sorted_ys, py_dedup, group_idx, sort_group_by_row_x,
    truthy_at, truthy, py_strip, strip_list, is_py_space, find_prev_source,
    assign_pairs, match_loop, remove_first_eq, assign_from,
    resolve_model_x, py_abs, fill_go, sort_block_group, List.insertionSort,
    List.orderedInsert, List.range, List.range.loop, getD_set]

set_option maxHeartbeats 4000000 in
theorem cexC2_baseline_eval :
    propagate_equipment_in_section cexC2 =
      [⟨1, 0, 0, 0, 0, 0, "A1", "M-1"⟩, ⟨1, 0, 0, 500, 1000, 1000, "A1", "N-2"⟩] := by
  norm_num +decide [cexC2, propagate_equipment_in_section, propagate_block_fill,
    propagate_rows_pass, pass1_go, pass1_step, sorted_ys, py_dedup, group_idx,
    sort_group_by_row_x, truthy_at, truthy, py_strip, strip_list, is_py_space,
    find_prev_source, assign_pairs, match_loop, argmin_first, remove_first_eq,
    assign_from, resolve_model_x, py_abs, fill_go, sort_block_group,
    List.insertionSort, List.orderedInsert, List.range, List.range.loop, getD_set]

set_option maxHeartbeats 4000000 in
theorem cexC2_adopted :
    (apply_line_assist_if_confident [500] [] cexC2 0 1100 [0]
        ⟨"auto", 300, 7/10, false⟩).adopted = true := by
  rw [apply_line_assist_if_confident]
  simp only [cexC2_assisted_eval, cexC2_baseline_eval]
  norm_num +decide [cexC2,
    line_blocks_for, build_line_based_blocks, merge_vertical_lines, cxp_go,
    list_mean, compact_bounds, compact_go, line_assist_confidence,
    count_unresolved_equipment, average_model_block_alignment_distance,
    block_model_xs, resolve_model_x, truthy, py_strip, strip_list, is_py_space,
    py_abs, List.insertionSort, List.orderedInsert]

/-- C2 (counterexample to the claim as stated): with one symbol-bearing row
and one distant symbol-less row in a single baseline block, a detected
vertical line at x = 500 splits the section into two line-derived blocks.
The gate adopts (the average model-to-centroid distance falls from 500 to
0), yet the unresolved-symbol count rises from 0 (the baseline block fill
reaches the distant row) to 1 (the rows now sit in different blocks):
adoption does increase the unresolved count, so the gate is not a
refinement in the claimed sense. -/
theorem line_assist_refinement_counterexample :
    (apply_line_assist_if_confident [500] [] cexC2 0 1100 [0]
        ⟨"auto", 300, 7/10, false⟩).adopted = true ∧
      count_unresolved_equipment (propagate_equipment_in_section cexC2) <
        count_unresolved_equipment (assisted_rows_for [500] [] cexC2 0 1100) := by
  refine ⟨cexC2_adopted, ?_⟩
  rw [cexC2_baseline_eval, cexC2_assisted_eval]
  decide

theorem apply_line_assist_adopt_requires_gain_witness :
    count_unresolved_equipment (assisted_rows_for [500] [] cexC2 0 1100) <
        count_unresolved_equipment (propagate_equipment_in_section cexC2) ∨
      average_model_block_alignment_distance
          (assisted_rows_for [500] [] cexC2 0 1100) + 1 <
        average_model_block_alignment_distance (propagate_equipment_in_section cexC2) :=
  apply_line_assist_adopt_requires_gain [500] [] cexC2 0 1100 [0]
    ⟨"auto", 300, 7/10, false⟩ cexC2_adopted

/-! ## Output-row construction (e055_extractor.py lines 172-187, 341-360, 1041-1066)

The output dict `{"機器器具": …, "メーカー": …, "型番": …}` is embedded as the
structure `OutRow` (`equipment`, `manufacturer`, `model`).  Python's `\s` is
embedded as `is_py_space` and `\d` as `Char.isDigit`, matching the ASCII
repertoire exercised by the extractor. -/

/-- Collapse every maximal whitespace run of length ≥ 2 to a single plain
space: `re.sub(r"\s{2,}", " ", text)` (a lone whitespace character is kept
unchanged). -/
def collapse_ws2 : List Char → List Char
  | [] => []
  | c :: cs =>
    if is_py_space c then
      if (cs.takeWhile is_py_space).isEmpty then c :: collapse_ws2 cs
      else ' ' :: collapse_ws2 (cs.dropWhile is_py_space)
    else c :: collapse_ws2 cs
termination_by l => l.length
decreasing_by
  · simp
  · simp only [List.length_cons]
    exact Nat.lt_succ_of_le (List.dropWhile_sublist _).length_le
  · simp

/-- The separators of `strip_times_marker_from_model`'s second rewrite:
`[,、/／|]`. -/
def is_times_sep (c : Char) : Bool :=
  c = ',' ∨ c = '、' ∨ c = '/' ∨ c = '／' ∨ c = '|'

/-- `re.sub(r"\s*([,、/／|])\s*", r" \1 ", text)`: each separator, together
with the whitespace around it, is rewritten to the separator surrounded by
single spaces.  `pend` holds a (reversed) whitespace run that has not yet
been resolved to "precedes a separator" or "plain text". -/
def sep_space_go (pend : List Char) : List Char → List Char
  | [] => pend.reverse
  | c :: cs =>
    if is_py_space c then sep_space_go (c :: pend) cs
    else if is_times_sep c then ' ' :: c :: ' ' :: sep_space_go [] (cs.dropWhile is_py_space)
    else pend.reverse ++ (c :: sep_space_go [] cs)
termination_by l => l.length
decreasing_by
  · simp
  · simp only [List.length_cons]
    exact Nat.lt_succ_of_le (List.dropWhile_sublist _).length_le
  · simp

/-- `strip_times_marker_from_model` (e055_extractor.py lines 172-178): NFKC
normalize, collapse whitespace runs, space out the list separators, collapse
again, then strip `" ,、/／|"` from both ends. -/
def strip_times_marker_from_model (value : String) : String :=
  py_strip_chars [' ', ',', '、', '/', '／', '|']
    ⟨collapse_ws2 (sep_space_go [] (collapse_ws2 (normalize_text value).data))⟩

/-- `split_equivalent_model` (lines 180-187): NFKC normalize and strip, turn
the full-width colon into ":", split at the first ":" into (maker, model);
without a colon the maker is empty. -/
def split_equivalent_model (value : String) : String × String :=
  let text := (py_strip (normalize_text value)).data.map (fun c => if c = '：' then ':' else c)
  if (':' : Char) ∈ text then
    (py_strip ⟨text.takeWhile (fun c => c != ':')⟩,
     strip_times_marker_from_model ⟨(text.dropWhile (fun c => c != ':')).tail⟩)
  else ("", strip_times_marker_from_model ⟨text⟩)

/-- `_normalize_for_model_matching` (lines 341-343): NFKC normalize,
upper-case, remove all whitespace, hyphens, underscores and dash variants. -/
def is_model_match_strip (c : Char) : Bool :=
  is_py_space c || (c = '-' || c = '_' || c = 'ー' || c = '―' || c = '−' ||
    c = '–' || c = '—' || c = '‐' || c = 'ｰ')

def normalize_for_model_matching (value : String) : String :=
  ⟨((normalize_text value).data.map upper_char).filter (fun c => !is_model_match_strip c)⟩

/-- `_is_emergency_certification_model` (lines 347-351): the normalized model
is non-empty, starts with "LALE" and contains a digit. -/
def is_emergency_certification_model (model : String) : Bool :=
  let normalized := (normalize_for_model_matching model).data
  !normalized.isEmpty && ("LALE".data.isPrefixOf normalized && normalized.any Char.isDigit)

/-- `EXCLUDED_EMERGENCY_CODES` (line 49). -/
def EXCLUDED_EMERGENCY_CODES : List String :=
  ["EDL", "EDM", "ECL", "ECM", "ECH", "ES1", "ES2"]

/-- `_should_skip_output_row(equipment, model)` (lines 354-360). -/
def should_skip_output_row (equipment model : String) : Bool :=
  if model.data.isEmpty then true
  else if EXCLUDED_EMERGENCY_CODES.contains (to_upper (compact_text equipment)) then true
  else is_emergency_certification_model model

/-- One output dict of `build_output_rows`: keys 機器器具 (`equipment`),
メーカー (`manufacturer`), 型番 (`model`). -/
structure OutRow where
  equipment : String
  manufacturer : String
  model : String
deriving DecidableEq, Repr

/-- The Python sort key `(int(page), int(section_index), int(block_index),
float(row_y), float(row_x))` (lines 1042-1050). -/
def out_key (c : Cand) : ℤ × ℤ × ℤ × ℚ × ℚ :=
  (c.page, c.section_index, c.block_index, c.row_y, c.row_x)

/-- Lexicographic non-strict comparison of pairs, as Python compares key
tuples componentwise. -/
def lex_le {α β : Type} [LT α] (rb : β → β → Prop) (x y : α × β) : Prop :=
  x.1 < y.1 ∨ (x.1 = y.1 ∧ rb x.2 y.2)

/-- The base comparison of the innermost key component. -/
def rat_le (q r : ℚ) : Prop := q ≤ r

instance rat_le_decidable : DecidableRel rat_le :=
  fun q r => inferInstanceAs (Decidable (q ≤ r))

theorem rat_le_total (q r : ℚ) : rat_le q r ∨ rat_le r q := le_total q r

theorem rat_le_transitive (q r s : ℚ) (h1 : rat_le q r) (h2 : rat_le r s) : rat_le q s :=
  le_trans h1 h2

theorem rat_le_antisymm (q r : ℚ) (h1 : rat_le q r) (h2 : rat_le r q) : q = r :=
  le_antisymm h1 h2

instance lex_le_decidable {α β : Type} [LinearOrder α] (rb : β → β → Prop)
    [DecidableRel rb] : DecidableRel (@lex_le α β _ rb) :=
  fun x y => decidable_of_iff (x.1 < y.1 ∨ (x.1 = y.1 ∧ rb x.2 y.2)) Iff.rfl

theorem lex_le_total {α β : Type} [LinearOrder α] (rb : β → β → Prop)
    (hb : ∀ x y, rb x y ∨ rb y x) :
    ∀ x y : α × β, lex_le rb x y ∨ lex_le rb y x := by
  intro x y
  rcases lt_trichotomy x.1 y.1 with h | h | h
  · exact Or.inl (Or.inl h)
  · rcases hb x.2 y.2 with h2 | h2
    · exact Or.inl (Or.inr ⟨h, h2⟩)
    · exact Or.inr (Or.inr ⟨h.symm, h2⟩)
  · exact Or.inr (Or.inl h)

theorem lex_le_trans {α β : Type} [LinearOrder α] (rb : β → β → Prop)
    (hb : ∀ x y z, rb x y → rb y z → rb x z) :
    ∀ x y z : α × β, lex_le rb x y → lex_le rb y z → lex_le rb x z := by
  intro x y z h1 h2
  rcases h1 with h1 | ⟨e1, h1⟩ <;> rcases h2 with h2 | ⟨e2, h2⟩
  · exact Or.inl (h1.trans h2)
  · exact Or.inl (e2 ▸ h1)
  · exact Or.inl (e1 ▸ h2)
  · exact Or.inr ⟨e1.trans e2, hb _ _ _ h1 h2⟩

theorem lex_le_antisymm {α β : Type} [LinearOrder α] (rb : β → β → Prop)
    (hb : ∀ x y, rb x y → rb y x → x = y) :
    ∀ x y : α × β, lex_le rb x y → lex_le rb y x → x = y := by
  intro x y h1 h2
  rcases h1 with h1 | ⟨e1, h1⟩
  · rcases h2 with h2 | ⟨e2, h2⟩
    · exact absurd h2 (lt_asymm h1)
    · exact absurd h1 (e2 ▸ lt_irrefl _)
  · rcases h2 with h2 | ⟨e2, h2⟩
    · exact absurd h2 (e1 ▸ lt_irrefl _)
    · exact Prod.ext e1 (hb _ _ h1 h2)

/-- `sorted(candidates, key=…)`'s comparison: lexicographic ≤ on `out_key`. -/
def cand_key_le (a b : Cand) : Prop :=
  lex_le (lex_le (lex_le (lex_le rat_le))) (out_key a) (out_key b)

instance cand_key_le_decidable : DecidableRel cand_key_le :=
  fun a b => decidable_of_iff
    (lex_le (lex_le (lex_le (lex_le rat_le))) (out_key a) (out_key b)) Iff.rfl

theorem cand_key_le_total (a b : Cand) : cand_key_le a b ∨ cand_key_le b a :=
  lex_le_total _ (lex_le_total _ (lex_le_total _ (lex_le_total _ rat_le_total)))
    (out_key a) (out_key b)

theorem cand_key_le_transitive (a b c : Cand)
    (h1 : cand_key_le a b) (h2 : cand_key_le b c) : cand_key_le a c :=
  lex_le_trans _ (lex_le_trans _ (lex_le_trans _ (lex_le_trans _ rat_le_transitive)))
    _ _ _ h1 h2

theorem cand_key_le_antisymm_key (a b : Cand)
    (h1 : cand_key_le a b) (h2 : cand_key_le b a) : out_key a = out_key b :=
  lex_le_antisymm _ (lex_le_antisymm _ (lex_le_antisymm _ (lex_le_antisymm _ rat_le_antisymm)))
    _ _ h1 h2

/-- `sorted(candidates, key=…)` (lines 1042-1050): Python's stable sort. -/
def sort_candidates (cs : List Cand) : List Cand :=
  cs.insertionSort cand_key_le

/-- The loop body of `build_output_rows` (lines 1053-1065) for one candidate:
`None` exactly when the `continue` fires. -/
def project_row (item : Cand) : Option OutRow :=
  let mm := split_equivalent_model (py_strip item.model)
  let equipment := py_strip item.equipment
  if should_skip_output_row equipment mm.2 then none
  else some ⟨equipment, mm.1, mm.2⟩

/-- `build_output_rows(candidates)` (lines 1041-1066). -/
def build_output_rows (cs : List Cand) : List OutRow :=
  (sort_candidates cs).filterMap project_row

theorem length_filterMap_isSome {α β : Type} (f : α → Option β) (l : List α) :
    (l.filterMap f).length = (l.filter (fun x => (f x).isSome)).length := by
  induction l with
  | nil => rfl
  | cons a t ih =>
    cases hfa : f a <;>
      simp [List.filterMap_cons, hfa, List.filter_cons, ih]

/-- Two sorted lists that are permutations of each other are equal, given
antisymmetry of the order on the members involved. -/
theorem sorted_perm_eq {α : Type} (r : α → α → Prop) (l1 : List α) :
    ∀ l2, (∀ a ∈ l1, ∀ b ∈ l1, r a b → r b a → a = b) →
      l1.Perm l2 → l1.Pairwise r → l2.Pairwise r → l1 = l2 := by
  induction l1 with
  | nil =>
    intro l2 _ hp _ _
    exact (hp.symm.eq_nil).symm
  | cons a t ih =>
    intro l2 hanti hp hs1 hs2
    cases l2 with
    | nil => exact absurd hp.eq_nil (by simp)
    | cons b t2 =>
      have hab : a = b := by
        by_cases he : a = b
        · exact he
        · have hbmem : b ∈ a :: t := hp.mem_iff.mpr (List.mem_cons_self b t2)
          have hamem : a ∈ b :: t2 := hp.mem_iff.mp (List.mem_cons_self a t)
          have hbt : b ∈ t := by
            rcases List.mem_cons.mp hbmem with h | h
            · exact absurd h.symm he
            · exact h
          have hat : a ∈ t2 := by
            rcases List.mem_cons.mp hamem with h | h
            · exact absurd h he
            · exact h
          have hrab : r a b := (List.pairwise_cons.mp hs1).1 b hbt
          have hrba : r b a := (List.pairwise_cons.mp hs2).1 a hat
          exact hanti a (List.mem_cons_self a t) b (List.mem_cons_of_mem a hbt) hrab hrba
      subst hab
      have hpt : t.Perm t2 := hp.cons_inv
      have := ih t2
        (fun x hx y hy => hanti x (List.mem_cons_of_mem a hx) y (List.mem_cons_of_mem a hy))
        hpt (List.pairwise_cons.mp hs1).2 (List.pairwise_cons.mp hs2).2
      rw [this]

/-- C5 (amended): `build_output_rows` is a pure function of the candidate
multiset whenever the sort key `(page, section_index, block_index, row_y,
row_x)` separates the records: for every permutation of a candidate list on
which the key is injective, the output rows are identical and in the same
order; with records that share the full key, the stable sort preserves their
relative input order, so permutation-independence can fail (see the
counterexample). -/
theorem build_output_rows_perm_invariant (cs1 cs2 : List Cand) (hperm : cs1.Perm cs2)
    (hinj : ∀ a ∈ cs1, ∀ b ∈ cs1, out_key a = out_key b → a = b) :
    build_output_rows cs1 = build_output_rows cs2 := by
  unfold build_output_rows sort_candidates
  haveI ht : IsTotal Cand cand_key_le := ⟨cand_key_le_total⟩
  haveI htr : IsTrans Cand cand_key_le := ⟨cand_key_le_transitive⟩
  have h1 : (cs1.insertionSort cand_key_le).Perm (cs2.insertionSort cand_key_le) :=
    (List.perm_insertionSort _ cs1).trans (hperm.trans (List.perm_insertionSort _ cs2).symm)
  have e : cs1.insertionSort cand_key_le = cs2.insertionSort cand_key_le := by
    refine sorted_perm_eq cand_key_le _ _ ?_ h1 ?_ ?_
    · intro a ha b hb r1 r2
      exact hinj a ((List.perm_insertionSort cand_key_le cs1).subset ha)
        b ((List.perm_insertionSort cand_key_le cs1).subset hb)
        (cand_key_le_antisymm_key a b r1 r2)
    · exact List.sorted_insertionSort cand_key_le cs1
    · have hs2 := List.sorted_insertionSort cand_key_le cs2
      have hsub : ∀ x ∈ cs2.insertionSort cand_key_le, x ∈ cs1 := fun x hx =>
        hperm.symm.subset ((List.perm_insertionSort cand_key_le cs2).subset hx)
      exact hs2
  rw [e]

theorem build_output_rows_perm_invariant_witness :
    ([⟨1, 0, 0, 0, 0, 0, "A1", "M1"⟩, (⟨1, 0, 0, 10, 0, 0, "B2", "M2"⟩ : Cand)].Perm
        [⟨1, 0, 0, 10, 0, 0, "B2", "M2"⟩, ⟨1, 0, 0, 0, 0, 0, "A1", "M1"⟩]) ∧
      (∀ a ∈ ([⟨1, 0, 0, 0, 0, 0, "A1", "M1"⟩, (⟨1, 0, 0, 10, 0, 0, "B2", "M2"⟩ : Cand)]),
        ∀ b ∈ ([⟨1, 0, 0, 0, 0, 0, "A1", "M1"⟩, (⟨1, 0, 0, 10, 0, 0, "B2", "M2"⟩ : Cand)]),
          out_key a = out_key b → a = b) ∧
      build_output_rows [⟨1, 0, 0, 0, 0, 0, "A1", "M1"⟩, ⟨1, 0, 0, 10, 0, 0, "B2", "M2"⟩] =
        build_output_rows [⟨1, 0, 0, 10, 0, 0, "B2", "M2"⟩, ⟨1, 0, 0, 0, 0, 0, "A1", "M1"⟩] :=
  ⟨by decide, by decide,
   build_output_rows_perm_invariant _ _ (by decide) (by decide)⟩

/-- C5 (counterexample to the claim as stated): two parsed records that share
the entire sort key `(page, section_index, block_index, row_y, row_x)` but
differ in content keep their relative input order under Python's stable sort, so
the two input orders of the same candidate set yield different output row
orders. -/
theorem build_output_rows_order_counterexample :
    ([⟨1, 0, 0, 0, 0, 0, "A1", "M1"⟩, (⟨1, 0, 0, 0, 0, 0, "B2", "M2"⟩ : Cand)].Perm
        [⟨1, 0, 0, 0, 0, 0, "B2", "M2"⟩, ⟨1, 0, 0, 0, 0, 0, "A1", "M1"⟩]) ∧
      build_output_rows [⟨1, 0, 0, 0, 0, 0, "A1", "M1"⟩, ⟨1, 0, 0, 0, 0, 0, "B2", "M2"⟩] ≠
        build_output_rows [⟨1, 0, 0, 0, 0, 0, "B2", "M2"⟩, ⟨1, 0, 0, 0, 0, 0, "A1", "M1"⟩] := by
  refine ⟨by decide, ?_⟩
  have e1 : build_output_rows [⟨1, 0, 0, 0, 0, 0, "A1", "M1"⟩, ⟨1, 0, 0, 0, 0, 0, "B2", "M2"⟩] =
      [⟨"A1", "", "M1"⟩, ⟨"B2", "", "M2"⟩] := by
    norm_num +decide [build_output_rows, sort_candidates, project_row, should_skip_output_row,
      split_equivalent_model, strip_times_marker_from_model, collapse_ws2, sep_space_go,
      is_times_sep, normalize_text, nfkc_char, compact_text, to_upper, upper_char,
      py_strip, py_strip_chars, strip_list, is_py_space, is_emergency_certification_model,
      normalize_for_model_matching, is_model_match_strip, EXCLUDED_EMERGENCY_CODES,
      List.insertionSort, List.orderedInsert, cand_key_le, lex_le, rat_le, out_key,
      List.filterMap_cons, List.filterMap_nil]
  have e2 : build_output_rows [⟨1, 0, 0, 0, 0, 0, "B2", "M2"⟩, ⟨1, 0, 0, 0, 0, 0, "A1", "M1"⟩] =
      [⟨"B2", "", "M2"⟩, ⟨"A1", "", "M1"⟩] := by
    norm_num +decide [build_output_rows, sort_candidates, project_row, should_skip_output_row,
      split_equivalent_model, strip_times_marker_from_model, collapse_ws2, sep_space_go,
      is_times_sep, normalize_text, nfkc_char, compact_text, to_upper, upper_char,
      py_strip, py_strip_chars, strip_list, is_py_space, is_emergency_certification_model,
      normalize_for_model_matching, is_model_match_strip, EXCLUDED_EMERGENCY_CODES,
      List.insertionSort, List.orderedInsert, cand_key_le, lex_le, rat_le, out_key,
      List.filterMap_cons, List.filterMap_nil]
  rw [e1, e2]
  decide

/-- C8: a record whose stripped equipment symbol compacts and upper-cases
into the excluded emergency-code set, or whose model (the part of 相当型番
after the maker split) is an emergency-certification "LALE…digit" model, is
skipped by the output loop — its projection is `none` — and every emitted
output row comes from a record whose projection is `some`: the output length
equals the number of candidates with a `some` projection, so no row is
emitted for the excluded record. -/
theorem build_output_rows_skips_excluded (cs : List Cand) (c : Cand)
    (h : EXCLUDED_EMERGENCY_CODES.contains (to_upper (compact_text (py_strip c.equipment))) = true ∨
      is_emergency_certification_model
        ((split_equivalent_model (py_strip c.model)).2) = true) :
    project_row c = none ∧
      (build_output_rows cs).length =
        (cs.filter (fun x => (project_row x).isSome)).length := by
  constructor
  · have hskip : should_skip_output_row (py_strip c.equipment)
        ((split_equivalent_model (py_strip c.model)).2) = true := by
      rw [should_skip_output_row]
      split
      · rfl
      · split
        · rfl
        · rename_i hc2
          rcases h with h | h
          · exact absurd h hc2
          · exact h
    simp [project_row, hskip]
  · unfold build_output_rows
    rw [length_filterMap_isSome]
    exact ((List.perm_insertionSort cand_key_le cs).filter _).length_eq

theorem build_output_rows_skips_excluded_witness :
    (EXCLUDED_EMERGENCY_CODES.contains
        (to_upper (compact_text (py_strip (Cand.equipment ⟨1, 0, 0, 0, 0, 0, "EDL", "X-1"⟩)))) = true ∨
      is_emergency_certification_model
        ((split_equivalent_model (py_strip (Cand.model ⟨1, 0, 0, 0, 0, 0, "EDL", "X-1"⟩))).2) = true) ∧
      project_row ⟨1, 0, 0, 0, 0, 0, "EDL", "X-1"⟩ = none ∧
      (build_output_rows [⟨1, 0, 0, 0, 0, 0, "EDL", "X-1"⟩]).length =
        ([(⟨1, 0, 0, 0, 0, 0, "EDL", "X-1"⟩ : Cand)].filter
          (fun x => (project_row x).isSome)).length :=
  ⟨Or.inl (by decide),
   build_output_rows_skips_excluded [⟨1, 0, 0, 0, 0, 0, "EDL", "X-1"⟩]
     ⟨1, 0, 0, 0, 0, 0, "EDL", "X-1"⟩ (Or.inl (by decide))⟩

/-! ## Column-bound inference (raster_extractor.py lines 433-455, 676-825)

`float("inf")` in the best-cluster scan is embedded as `Option ℚ` with
`none` standing for +∞; `None` centers are `Option ℚ`.  The `find_x` helper
is split per pick kind (`min`/`max`/`median`). -/

/-- `row_text(cluster)` (lines 449-450): member texts concatenated in `cx`
order. -/
def row_text (c : RowCluster) : String :=
  String.join ((c.words.insertionSort (fun a b => a.cx ≤ b.cx)).map (fun w => w.text))

/-- `header_score(cluster)` (lines 453-466). -/
def header_score (c : RowCluster) : ℤ :=
  let text := to_lower (normalize_text (row_text c))
  (if str_contains text "機器" then 1 else 0) +
    ((if str_contains text "記号" then 1 else 0) +
      ((if str_contains text "名称" then 1 else 0) +
        ((if str_contains text "電圧" || str_contains text "(v" || str_contains text "v)"
          then 1 else 0) +
          (if str_contains text "kw" || str_contains text "容量" then 1 else 0))))

/-- The best-cluster scan of `infer_column_bounds` (lines 688-695): running
minimum of the key `(-header_score c, c.row_y)` under lexicographic `<`,
starting from `(-1, +∞)` (`byv = none` stands for +∞). -/
def best_cluster_go (best : Option RowCluster) (bs : ℤ) (byv : Option ℚ) :
    List RowCluster → Option RowCluster
  | [] => best
  | c :: rest =>
    if decide (-(header_score c) < bs) ||
        (decide (-(header_score c) = bs) &&
          (match byv with | none => true | some v => decide (c.row_y < v))) then
      best_cluster_go (some c) (-(header_score c)) (some c.row_y) rest
    else best_cluster_go best bs byv rest

/-- `DEFAULT_CENTER_RATIOS` (line 42). -/
def DEFAULT_CENTER_RATIOS : List ℚ := [24/100, 35/100, 40/100, 44/100]

/-- `ColumnBounds` (lines 138-146). -/
structure ColumnBounds where
  x_min : ℚ
  b12 : ℚ
  b23 : ℚ
  b34 : ℚ
  x_max : ℚ
  header_y : ℚ
deriving DecidableEq, Repr

/-- `build_bounds_from_centers(centers, header_y, side_width)` (lines
805-825); the four-element `centers` list is passed destructured. -/
def build_bounds_from_centers (c1 c2 c3 c4 : ℚ) (header_y : ℚ) (side_width : ℤ) :
    ColumnBounds :=
  let b12 := (c1 + c2) / 2
  let b23 := (c2 + c3) / 2
  let b34 := (c3 + c4) / 2
  let x_min := max 0 (c1 - 90)
  let x_max0 := min (side_width : ℚ) (c4 + 90)
  let x_max := if x_max0 ≤ b34 then min (side_width : ℚ) (b34 + 60) else x_max0
  ⟨x_min, b12, b23, b34, x_max, header_y⟩

/-- The candidate `cx` values of `find_x` (lines 706-727): words of the
header row, filtered by the open window `(x_min, x_max)` (`none` = no bound)
and by the predicate on the normalized lower-cased text. -/
def find_x_values (header_words : List WordBox) (pred : String → Bool)
    (xmin xmax : Option ℚ) : List ℚ :=
  (header_words.filter (fun w =>
    (match xmin with | none => true | some m => decide (m < w.cx)) &&
    ((match xmax with | none => true | some m => decide (w.cx < m)) &&
      pred (to_lower (normalize_text w.text))))).map (fun w => w.cx)

/-- `median_or_none` / `statistics.median` on a non-empty list: middle
element, or the mean of the two middle elements. -/
def py_median (l : List ℚ) : ℚ :=
  let s := l.insertionSort (fun a b => a ≤ b)
  if s.length % 2 = 1 then s.getD (s.length / 2) 0
  else (s.getD (s.length / 2 - 1) 0 + s.getD (s.length / 2) 0) / 2

/-- `find_x(…, pick="median")`. -/
def find_x_median (header_words : List WordBox) (pred : String → Bool)
    (xmin xmax : Option ℚ) : Option ℚ :=
  let values := find_x_values header_words pred xmin xmax
  if values.isEmpty then none else some (py_median values)

/-- `c1` (lines 729-731): the 記号 column, falling back to 機器. -/
def center1 (header_words : List WordBox) (hx : ℚ) : Option ℚ :=
  match (find_x_values header_words (fun t => str_contains t "記号") none (some hx)).max? with
  | some v => some v
  | none => (find_x_values header_words (fun t => str_contains t "機器") none (some hx)).max?

/-- `c2` (lines 733-746): the 名称 column, falling back to a 名-or-称 median. -/
def center2 (header_words : List WordBox) (c1 : Option ℚ) (hx : ℚ) : Option ℚ :=
  match (find_x_values header_words (fun t => str_contains t "名称")
      (some (c1.getD 0 + 60)) (some hx)).max? with
  | some v => some v
  | none => find_x_median header_words
      (fun t => str_contains t "名" || str_contains t "称") (some (c1.getD 0 + 60)) (some hx)

/-- `c3` (lines 748-753). -/
def center3 (header_words : List WordBox) (c2 : Option ℚ) (hx : ℚ) : Option ℚ :=
  (find_x_values header_words
    (fun t => str_contains t "v" || str_contains t "電圧" || t == "電")
    (some (c2.getD 0 + 20)) (some hx)).min?

/-- `c4` (lines 755-767): kw, falling back to 容量. -/
def center4 (header_words : List WordBox) (c3 : Option ℚ) (hx : ℚ) : Option ℚ :=
  match (find_x_values header_words (fun t => str_contains t "kw")
      (some (c3.getD 0 + 20)) (some hx)).min? with
  | some v => some v
  | none => (find_x_values header_words (fun t => str_contains t "容量")
      (some (c3.getD 0 + 20)) (some hx)).min?

/-- `c5` (lines 769-779): the pipe/size column (no upper window). -/
def center5 (header_words : List WordBox) (c4 : Option ℚ) : Option ℚ :=
  (find_x_values header_words
    (fun t => str_contains t "配管" || str_contains t "配線" || str_contains t "サイズ" ||
      str_contains t "size" || ["配", "線", "サ", "ズ"].contains t)
    (some (c4.getD 0 + 30)) none).min?

/-- Lines 785-801: sequential minimum-gap clamping of the four centers,
bound construction, and the optional `c5` right guard. -/
def clamp_and_build (c1f c2f c3f c4f : ℚ) (c5 : Option ℚ) (header_y : ℚ)
    (side_width : ℤ) : ColumnBounds :=
  let c2g := if c2f ≤ c1f + 40 then c1f + 120 else c2f
  let c3g := if c3f ≤ c2g + 30 then c2g + 90 else c3f
  let c4g := if c4f ≤ c3g + 20 then c3g + 80 else c4f
  let bounds := build_bounds_from_centers c1f c2g c3g c4g header_y side_width
  match c5 with
  | none => bounds
  | some v5 =>
    if c4g + 35 < v5 then
      let right_guard := (c4g + v5) / 2
      if bounds.b34 + 15 < right_guard then
        { bounds with x_max := min bounds.x_max right_guard }
      else bounds
    else bounds

/-- The default bounds (lines 684-686, 697-699): centers from
`DEFAULT_CENTER_RATIOS`, `header_y = 0`. -/
def default_bounds (side_width : ℤ) : ColumnBounds :=
  build_bounds_from_centers ((side_width : ℚ) * (24/100)) ((side_width : ℚ) * (35/100))
    ((side_width : ℚ) * (40/100)) ((side_width : ℚ) * (44/100)) 0 side_width

/-- `infer_column_bounds(words, side_width)` (lines 682-802). -/
def infer_column_bounds (words : List WordBox) (side_width : ℤ) : ColumnBounds :=
  let clusters := cluster_by_y words 22
  match best_cluster_go none (-1) none clusters with
  | none => default_bounds side_width
  | some best =>
    if header_score best < 2 then default_bounds side_width
    else
      let header_words := best.words.insertionSort (fun a b => a.cx ≤ b.cx)
      let hx : ℚ := (side_width : ℚ) * (55/100)
      let c1 := center1 header_words hx
      let c2 := center2 header_words c1 hx
      let c3 := center3 header_words c2 hx
      let c4 := center4 header_words c3 hx
      let c5 := center5 header_words c4
      let c1f := c1.getD ((side_width : ℚ) * (24/100))
      let c2f := c2.getD ((side_width : ℚ) * (35/100))
      let c3f := c3.getD ((side_width : ℚ) * (40/100))
      let c4f := c4.getD ((side_width : ℚ) * (44/100))
      clamp_and_build c1f c2f c3f c4f c5 best.row_y side_width

/-! ## C3 lemmas: where the centers can lie -/

theorem cluster_step_words_mem (th : ℚ) (ws : List WordBox) :
    ∀ (cur : RowCluster) (c : RowCluster), c ∈ cluster_step th cur ws →
      ∀ w ∈ c.words, w ∈ cur.words ∨ w ∈ ws := by
  induction ws with
  | nil =>
    intro cur c hc w hw
    simp only [cluster_step, List.mem_singleton] at hc
    subst hc
    exact Or.inl hw
  | cons v vs ih =>
    intro cur c hc w hw
    simp only [cluster_step] at hc
    split at hc
    · rcases ih _ c hc w hw with h | h
      · simp only [List.mem_append, List.mem_singleton] at h
        rcases h with h | h
        · exact Or.inl h
        · exact Or.inr (by simp [h])
      · exact Or.inr (List.mem_cons_of_mem v h)
    · rcases List.mem_cons.mp hc with h | h
      · subst h
        exact Or.inl hw
      · rcases ih _ c h w hw with h2 | h2
        · simp only [List.mem_singleton] at h2
          exact Or.inr (by simp [h2])
        · exact Or.inr (List.mem_cons_of_mem v h2)

theorem cluster_by_y_words_mem (ws : List WordBox) (th : ℚ) (c : RowCluster)
    (hc : c ∈ cluster_by_y ws th) : ∀ w ∈ c.words, w ∈ ws := by
  intro w hw
  unfold cluster_by_y at hc
  rcases hsort : sort_by_cy ws with _ | ⟨v, rest⟩
  · rw [hsort] at hc
    simp at hc
  · rw [hsort] at hc
    have := cluster_step_words_mem th rest _ c hc w hw
    have hperm : (sort_by_cy ws).Perm ws := List.perm_insertionSort _ ws
    rcases this with h | h
    · simp only [List.mem_singleton] at h
      exact hperm.subset (by simp [hsort, h])
    · exact hperm.subset (by simp [hsort, List.mem_cons_of_mem v h])

theorem best_cluster_go_mem (cls : List RowCluster) :
    ∀ (b0 : Option RowCluster) (bs : ℤ) (byv : Option ℚ) (c : RowCluster),
      best_cluster_go b0 bs byv cls = some c → b0 = some c ∨ c ∈ cls := by
  induction cls with
  | nil =>
    intro b0 bs byv c h
    exact Or.inl h
  | cons d rest ih =>
    intro b0 bs byv c h
    simp only [best_cluster_go] at h
    split at h
    · rcases ih _ _ _ c h with h2 | h2
      · exact Or.inr (by simp [Option.some_inj.mp h2])
      · exact Or.inr (List.mem_cons_of_mem d h2)
    · rcases ih _ _ _ c h with h2 | h2
      · exact Or.inl h2
      · exact Or.inr (List.mem_cons_of_mem d h2)

theorem find_x_values_bounds (hw : List WordBox) (pred : String → Bool)
    (xmin : Option ℚ) (hx : ℚ) (hcx : ∀ w ∈ hw, 0 ≤ w.cx) :
    ∀ v ∈ find_x_values hw pred xmin (some hx), 0 ≤ v ∧ v < hx := by
  intro v hv
  unfold find_x_values at hv
  rcases List.mem_map.mp hv with ⟨w, hwmem, hwv⟩
  have hfilt := List.mem_filter.mp hwmem
  refine ⟨hwv ▸ hcx w hfilt.1, ?_⟩
  have hcond := hfilt.2
  simp only [Bool.and_eq_true, decide_eq_true_eq] at hcond
  exact hwv ▸ hcond.2.1

theorem max?_bounds (l : List ℚ) (lo hi : ℚ) (v : ℚ) (h : l.max? = some v)
    (hb : ∀ x ∈ l, lo ≤ x ∧ x < hi) : lo ≤ v ∧ v < hi :=
  hb v (List.max?_mem (fun x y => max_choice x y) h)

theorem min?_bounds (l : List ℚ) (lo hi : ℚ) (v : ℚ) (h : l.min? = some v)
    (hb : ∀ x ∈ l, lo ≤ x ∧ x < hi) : lo ≤ v ∧ v < hi :=
  hb v (List.min?_mem (fun x y => min_choice x y) h)

theorem py_median_bounds (l : List ℚ) (lo hi : ℚ) (hne : ¬ l.isEmpty = true)
    (hb : ∀ x ∈ l, lo ≤ x ∧ x < hi) : lo ≤ py_median l ∧ py_median l < hi := by
  unfold py_median
  have hperm : (l.insertionSort (fun a b => a ≤ b)).Perm l := List.perm_insertionSort _ l
  have hb2 : ∀ x ∈ l.insertionSort (fun a b => a ≤ b), lo ≤ x ∧ x < hi :=
    fun x hx => hb x (hperm.subset hx)
  have hlen : 0 < (l.insertionSort (fun a b => a ≤ b)).length := by
    rw [hperm.length_eq]
    cases l with
    | nil => simp at hne
    | cons a t => simp
  set s := l.insertionSort (fun a b => a ≤ b) with hs
  have hmem1 : s.getD (s.length / 2) 0 ∈ s := by
    have hlt : s.length / 2 < s.length := Nat.div_lt_self hlen (by norm_num)
    rw [List.getD_eq_getElem s 0 hlt]
    exact List.getElem_mem hlt
  dsimp only
  by_cases hodd : s.length % 2 = 1
  · simp only [if_pos hodd]
    exact hb2 _ hmem1
  · simp only [if_neg hodd]
    have hmem0 : s.getD (s.length / 2 - 1) 0 ∈ s := by
      have hlt : s.length / 2 - 1 < s.length := by
        have := Nat.div_lt_self hlen (show 1 < 2 by norm_num)
        omega
      rw [List.getD_eq_getElem s 0 hlt]
      exact List.getElem_mem hlt
    have b0 := hb2 _ hmem0
    have b1 := hb2 _ hmem1
    constructor
    · linarith [b0.1, b1.1]
    · linarith [b0.2, b1.2]

theorem center1_bounds (hw : List WordBox) (hx : ℚ) (v : ℚ)
    (hcx : ∀ w ∈ hw, 0 ≤ w.cx) (h : center1 hw hx = some v) : 0 ≤ v ∧ v < hx := by
  unfold center1 at h
  split at h
  · rename_i v0 hv0
    exact max?_bounds _ _ _ _ (h ▸ hv0) (find_x_values_bounds hw _ none hx hcx)
  · exact max?_bounds _ _ _ _ h (find_x_values_bounds hw _ none hx hcx)

theorem center2_bounds (hw : List WordBox) (c1 : Option ℚ) (hx : ℚ) (v : ℚ)
    (hcx : ∀ w ∈ hw, 0 ≤ w.cx) (h : center2 hw c1 hx = some v) : 0 ≤ v ∧ v < hx := by
  unfold center2 at h
  split at h
  · rename_i v0 hv0
    exact max?_bounds _ _ _ _ (h ▸ hv0) (find_x_values_bounds hw _ _ hx hcx)
  · unfold find_x_median at h
    dsimp only at h
    split at h
    · exact absurd h (by simp)
    · rename_i hne
      have hv : v = py_median (find_x_values hw
          (fun t => str_contains t "名" || str_contains t "称")
          (some (c1.getD 0 + 60)) (some hx)) := by
        exact (Option.some_inj.mp h).symm
      rw [hv]
      exact py_median_bounds _ _ _ hne (find_x_values_bounds hw _ _ hx hcx)

theorem center3_bounds (hw : List WordBox) (c2 : Option ℚ) (hx : ℚ) (v : ℚ)
    (hcx : ∀ w ∈ hw, 0 ≤ w.cx) (h : center3 hw c2 hx = some v) : 0 ≤ v ∧ v < hx := by
  unfold center3 at h
  exact min?_bounds _ _ _ _ h (find_x_values_bounds hw _ _ hx hcx)

theorem center4_bounds (hw : List WordBox) (c3 : Option ℚ) (hx : ℚ) (v : ℚ)
    (hcx : ∀ w ∈ hw, 0 ≤ w.cx) (h : center4 hw c3 hx = some v) : 0 ≤ v ∧ v < hx := by
  unfold center4 at h
  split at h
  · rename_i v0 hv0
    exact min?_bounds _ _ _ _ (h ▸ hv0) (find_x_values_bounds hw _ _ hx hcx)
  · exact min?_bounds _ _ _ _ h (find_x_values_bounds hw _ _ hx hcx)

/-- The strict ordering chain of a `ColumnBounds` value. -/
def bounds_chain (b : ColumnBounds) : Prop :=
  b.x_min < b.b12 ∧ b.b12 < b.b23 ∧ b.b23 < b.b34 ∧ b.b34 < b.x_max

theorem build_bounds_chain (c1 c2 c3 c4 hy : ℚ) (side_width : ℤ)
    (h0 : 0 ≤ c1) (h12 : c1 + 40 < c2) (h23 : c2 + 30 < c3) (h34 : c3 + 20 < c4)
    (hsw : (c3 + c4) / 2 < (side_width : ℚ)) :
    bounds_chain (build_bounds_from_centers c1 c2 c3 c4 hy side_width) ∧
      (build_bounds_from_centers c1 c2 c3 c4 hy side_width).x_max =
        min (side_width : ℚ) (c4 + 90) := by
  unfold build_bounds_from_centers bounds_chain
  dsimp only
  have hxmax : ¬ min (side_width : ℚ) (c4 + 90) ≤ (c3 + c4) / 2 := by
    rw [not_le, lt_min_iff]
    constructor
    · exact hsw
    · linarith
  rw [if_neg hxmax]
  refine ⟨⟨?_, ?_, ?_, ?_⟩, rfl⟩
  · rw [max_lt_iff]
    constructor <;> linarith
  · linarith
  · linarith
  · rw [lt_min_iff]
    constructor
    · exact hsw
    · linarith

theorem clamp_and_build_chain (c1f c2f c3f c4f : ℚ) (c5 : Option ℚ) (hy : ℚ)
    (side_width : ℤ) (hs : 556 ≤ (side_width : ℚ))
    (h1 : 0 ≤ c1f ∧ c1f < 55/100 * (side_width : ℚ))
    (h2 : 0 ≤ c2f ∧ c2f < 55/100 * (side_width : ℚ))
    (h3 : 0 ≤ c3f ∧ c3f < 55/100 * (side_width : ℚ))
    (h4 : 0 ≤ c4f ∧ c4f < 55/100 * (side_width : ℚ)) :
    bounds_chain (clamp_and_build c1f c2f c3f c4f c5 hy side_width) := by
  unfold clamp_and_build
  dsimp only
  set s : ℚ := (side_width : ℚ) with hsdef
  set c2g := if c2f ≤ c1f + 40 then c1f + 120 else c2f with hc2g
  set c3g := if c3f ≤ c2g + 30 then c2g + 90 else c3f with hc3g
  set c4g := if c4f ≤ c3g + 20 then c3g + 80 else c4f with hc4g
  have hb2 : c1f + 40 < c2g ∧ c2g < 55/100 * s + 120 := by
    rw [hc2g]
    split
    · constructor <;> linarith [h1.1, h1.2]
    · rename_i hgap
      constructor <;> linarith [h2.2, not_le.mp hgap]
  have hb3 : c2g + 30 < c3g ∧ c3g < 55/100 * s + 210 := by
    rw [hc3g]
    split
    · constructor <;> linarith [hb2.1, hb2.2]
    · rename_i hgap
      constructor <;> linarith [h3.2, not_le.mp hgap, hb2.2]
  have hb4 : c3g + 20 < c4g ∧ c4g < 55/100 * s + 290 := by
    rw [hc4g]
    split
    · constructor <;> linarith [hb3.1, hb3.2]
    · rename_i hgap
      constructor <;> linarith [h4.2, not_le.mp hgap, hb3.2]
  have hsw : (c3g + c4g) / 2 < s := by
    have : 55/100 * s + 250 < s := by linarith
    linarith [hb3.2, hb4.2]
  have hmain := build_bounds_chain c1f c2g c3g c4g hy side_width h1.1 hb2.1 hb3.1 hb4.1 hsw
  rcases c5 with _ | v5
  · exact hmain.1
  · dsimp only
    split
    · split
      · rename_i hguard
        rcases hmain with ⟨⟨ha, hb, hc, hd⟩, hx⟩
        refine ⟨ha, hb, hc, ?_⟩
        dsimp only
        rw [lt_min_iff]
        refine ⟨hd, ?_⟩
        unfold build_bounds_from_centers at hguard ⊢
        dsimp only at hguard ⊢
        linarith [hguard]
      · exact hmain.1
    · exact hmain.1

theorem default_bounds_chain (side_width : ℤ) (hs : (556 : ℚ) ≤ (side_width : ℚ)) :
    bounds_chain (default_bounds side_width) := by
  unfold default_bounds build_bounds_from_centers bounds_chain
  dsimp only
  have hxmax : ¬ min ((side_width : ℚ)) ((side_width : ℚ) * (44/100) + 90) ≤
      ((side_width : ℚ) * (40/100) + (side_width : ℚ) * (44/100)) / 2 := by
    rw [not_le, lt_min_iff]
    constructor <;> linarith
  rw [if_neg hxmax]
  refine ⟨?_, ?_, ?_, ?_⟩
  · rw [max_lt_iff]
    constructor <;> linarith
  · linarith
  · linarith
  · rw [lt_min_iff]
    constructor <;> linarith

/-- C3 (amended): the strict ordering x_min < b12 < b23 < b34 < x_max of an
inferred `ColumnBounds` holds whenever the page is wide enough
(side_width ≥ 556) and every word centre is non-negative.  It is NOT an
unconditional invariant: the clamping raises the centers without regard to
the page width, so on a narrow page x_max (capped at side_width) can fall
below b34, and a negative word centre can push b12 below x_min = 0 (see the
counterexample). -/
theorem infer_column_bounds_monotonic (words : List WordBox) (side_width : ℤ)
    (hsw : (556 : ℤ) ≤ side_width) (hcx : ∀ w ∈ words, 0 ≤ w.cx) :
    bounds_chain (infer_column_bounds words side_width) := by
  have hs : (556 : ℚ) ≤ (side_width : ℚ) := by exact_mod_cast hsw
  unfold infer_column_bounds
  dsimp only
  rcases hbest : best_cluster_go none (-1) none (cluster_by_y words 22) with _ | best
  · exact default_bounds_chain side_width hs
  · dsimp only
    split
    · exact default_bounds_chain side_width hs
    · have hbm : best ∈ cluster_by_y words 22 := by
        rcases best_cluster_go_mem _ _ _ _ _ hbest with h | h
        · exact absurd h (by simp)
        · exact h
      have hwcx : ∀ w ∈ best.words.insertionSort (fun a b => a.cx ≤ b.cx), 0 ≤ w.cx :=
        fun w hwm => hcx w (cluster_by_y_words_mem words 22 best hbm w
          ((List.perm_insertionSort _ best.words).subset hwm))
      have hxeq : (side_width : ℚ) * (55/100) = 55/100 * (side_width : ℚ) := by ring
      have hdef : ∀ r : ℚ, 0 ≤ r → r < 55/100 →
          0 ≤ (side_width : ℚ) * r ∧ (side_width : ℚ) * r < 55/100 * (side_width : ℚ) := by
        intro r h0 h55
        constructor
        · nlinarith
        · nlinarith
      have hc1 : 0 ≤ (center1 (best.words.insertionSort (fun a b => a.cx ≤ b.cx))
            ((side_width : ℚ) * (55/100))).getD ((side_width : ℚ) * (24/100)) ∧
          (center1 (best.words.insertionSort (fun a b => a.cx ≤ b.cx))
            ((side_width : ℚ) * (55/100))).getD ((side_width : ℚ) * (24/100)) <
            55/100 * (side_width : ℚ) := by
        rcases hg : center1 (best.words.insertionSort (fun a b => a.cx ≤ b.cx))
            ((side_width : ℚ) * (55/100)) with _ | v
        · simp only [Option.getD_none]
          exact hdef _ (by norm_num) (by norm_num)
        · simp only [Option.getD_some]
          have := center1_bounds _ _ _ hwcx hg
          exact ⟨this.1, hxeq ▸ this.2⟩
      have hc2 : ∀ o : Option ℚ,
          0 ≤ (center2 (best.words.insertionSort (fun a b => a.cx ≤ b.cx)) o
            ((side_width : ℚ) * (55/100))).getD ((side_width : ℚ) * (35/100)) ∧
          (center2 (best.words.insertionSort (fun a b => a.cx ≤ b.cx)) o
            ((side_width : ℚ) * (55/100))).getD ((side_width : ℚ) * (35/100)) <
            55/100 * (side_width : ℚ) := by
        intro o
        rcases hg : center2 (best.words.insertionSort (fun a b => a.cx ≤ b.cx)) o
            ((side_width : ℚ) * (55/100)) with _ | v
        · simp only [Option.getD_none]
          exact hdef _ (by norm_num) (by norm_num)
        · simp only [Option.getD_some]
          have := center2_bounds _ _ _ _ hwcx hg
          exact ⟨this.1, hxeq ▸ this.2⟩
      have hc3 : ∀ o : Option ℚ,
          0 ≤ (center3 (best.words.insertionSort (fun a b => a.cx ≤ b.cx)) o
            ((side_width : ℚ) * (55/100))).getD ((side_width : ℚ) * (40/100)) ∧
          (center3 (best.words.insertionSort (fun a b => a.cx ≤ b.cx)) o
            ((side_width : ℚ) * (55/100))).getD ((side_width : ℚ) * (40/100)) <
            55/100 * (side_width : ℚ) := by
        intro o
        rcases hg : center3 (best.words.insertionSort (fun a b => a.cx ≤ b.cx)) o
            ((side_width : ℚ) * (55/100)) with _ | v
        · simp only [Option.getD_none]
          exact hdef _ (by norm_num) (by norm_num)
        · simp only [Option.getD_some]
          have := center3_bounds _ _ _ _ hwcx hg
          exact ⟨this.1, hxeq ▸ this.2⟩
      have hc4 : ∀ o : Option ℚ,
          0 ≤ (center4 (best.words.insertionSort (fun a b => a.cx ≤ b.cx)) o
            ((side_width : ℚ) * (55/100))).getD ((side_width : ℚ) * (44/100)) ∧
          (center4 (best.words.insertionSort (fun a b => a.cx ≤ b.cx)) o
            ((side_width : ℚ) * (55/100))).getD ((side_width : ℚ) * (44/100)) <
            55/100 * (side_width : ℚ) := by
        intro o
        rcases hg : center4 (best.words.insertionSort (fun a b => a.cx ≤ b.cx)) o
            ((side_width : ℚ) * (55/100)) with _ | v
        · simp only [Option.getD_none]
          exact hdef _ (by norm_num) (by norm_num)
        · simp only [Option.getD_some]
          have := center4_bounds _ _ _ _ hwcx hg
          exact ⟨this.1, hxeq ▸ this.2⟩
      exact clamp_and_build_chain _ _ _ _ _ _ _ hs hc1 (hc2 _) (hc3 _) (hc4 _)

theorem infer_column_bounds_monotonic_witness :
    (556 : ℤ) ≤ 600 ∧ (∀ w ∈ ([] : List WordBox), 0 ≤ w.cx) ∧
      bounds_chain (infer_column_bounds [] 600) :=
  ⟨by decide, by simp,
   infer_column_bounds_monotonic [] 600 (by decide) (by simp)⟩

set_option maxHeartbeats 2000000 in
/-- C3 (counterexample to the claim as stated): a 100px-wide side with a
real header row (score 2: a 記号 word at cx 50 and a kw word at cx 90 on one
row) leaves c2..c4 to their defaults 35, 40, 44; the minimum-gap clamps push
them to 170, 260, 340, so b34 = 300, while x_max is capped at the side width
100: the invariant b34 < x_max fails even though side_width > 0. -/
theorem infer_column_bounds_counterexample :
    (0 : ℤ) < 100 ∧
      infer_column_bounds [⟨"記号", 50, 10, 0, 0, 0, 0⟩, ⟨"kw", 90, 10, 0, 0, 0, 0⟩] 100 =
        ⟨0, 110, 215, 300, 100, 10⟩ ∧
      ¬ bounds_chain (infer_column_bounds [⟨"記号", 50, 10, 0, 0, 0, 0⟩,
          ⟨"kw", 90, 10, 0, 0, 0, 0⟩] 100) := by
  have he : infer_column_bounds [⟨"記号", 50, 10, 0, 0, 0, 0⟩, ⟨"kw", 90, 10, 0, 0, 0, 0⟩] 100 =
      ⟨0, 110, 215, 300, 100, 10⟩ := by
    norm_num +decide [infer_column_bounds, cluster_by_y, sort_by_cy, cluster_step, py_abs,
      best_cluster_go, header_score, row_text, str_contains, list_infix, to_lower, lower_char,
      normalize_text, nfkc_char, String.join, center1, center2, center3, center4, center5,
      find_x_values, find_x_median, py_median, clamp_and_build, build_bounds_from_centers,
      default_bounds, List.insertionSort, List.orderedInsert]
  refine ⟨by decide, he, ?_⟩
  rw [he]
  unfold bounds_chain
  dsimp only
  norm_num

/-! ## e251 anchor detection (e251_extractor.py lines 24-25, 81-92, 108-110, 248-286)

Python's `[A-Z]` and `\d` match ASCII here (`is_ascii_upper`,
`is_ascii_digit`); `int(round(x))` is round-half-to-even (`py_round_int`). -/

def is_ascii_upper (c : Char) : Bool := 'A' ≤ c && c ≤ 'Z'

def is_ascii_digit (c : Char) : Bool := '0' ≤ c && c ≤ '9'

/-- `DASH_VARIANTS_PATTERN` (line 24). -/
def is_dash_variant (c : Char) : Bool :=
  c = 'ー' || c = '―' || c = '−' || c = '–' || c = '—' || c = '‐' || c = 'ｰ' || c = '－'

/-- `_normalize_dash(value)` (lines 81-82). -/
def normalize_dash (value : String) : String :=
  ⟨(normalize_text value).data.map (fun c => if is_dash_variant c then '-' else c)⟩

/-- `_normalize_token(value)` (lines 85-88). -/
def normalize_token (value : String) : String :=
  py_strip_chars ['[', ']', '(', ')', '\x7b', '\x7d', '<', '>', '|', ',', '.', ';', ':',
    '\'', '"'] (to_upper (normalize_dash value))

/-- `EQUIPMENT_CODE_PATTERN.fullmatch`: `^[A-Z]\d{1,2}$`. -/
def matches_equipment_code (s : String) : Bool :=
  match s.data with
  | [c, d] => is_ascii_upper c && is_ascii_digit d
  | [c, d, e] => is_ascii_upper c && (is_ascii_digit d && is_ascii_digit e)
  | _ => false

/-- `_is_equipment_code(value)` (lines 91-92). -/
def is_equipment_code (value : String) : Bool :=
  matches_equipment_code (normalize_token value)

/-- `re.fullmatch(r"[A-Z]", s)`. -/
def is_single_upper (s : String) : Bool :=
  match s.data with
  | [c] => is_ascii_upper c
  | _ => false

/-- `re.fullmatch(r"\d{1,2}", s)`. -/
def is_one_two_digits (s : String) : Bool :=
  match s.data with
  | [d] => is_ascii_digit d
  | [d, e] => is_ascii_digit d && is_ascii_digit e
  | _ => false

/-- `_is_symbol_like(value)` (lines 108-110). -/
def is_symbol_like (value : String) : Bool :=
  is_single_upper (normalize_token value)

/-- Python `int(round(x))`: round half to even. -/
def py_round_int (q : ℚ) : ℤ :=
  if q - ⌊q⌋ < 1/2 then ⌊q⌋
  else if 1/2 < q - ⌊q⌋ then ⌊q⌋ + 1
  else if ⌊q⌋ % 2 = 0 then ⌊q⌋ else ⌊q⌋ + 1

/-- `EquipmentAnchor` (lines 66-70). -/
structure EquipmentAnchor where
  x : ℚ
  raw : String
  equipment : String
deriving DecidableEq, Repr

/-- The split-code merge test of `_detect_anchors` (lines 262-269): the
current token is one uppercase letter, the next token is one or two digits,
and the horizontal gap (next left edge minus current right edge) is at most
20. -/
def should_merge (w : WordBox) : List WordBox → Bool
  | [] => false
  | w2 :: _ =>
    is_single_upper (normalize_token w.text) &&
      (is_one_two_digits (normalize_token w2.text) && decide (w2.x0 - w.x1 ≤ (20 : ℚ)))

/-- Classification and dedupe of one scanned token (lines 271-282): `none`
when the `continue` fires or the dedupe key was already seen. -/
def anchor_head (seen : List (String × ℤ)) (x : ℚ) (raw : String) :
    Option (EquipmentAnchor × (String × ℤ)) :=
  let cls : Option String :=
    if is_equipment_code raw then some raw
    else if is_symbol_like raw then some ""
    else none
  match cls with
  | none => none
  | some equip =>
    let key := (raw, py_round_int x)
    if seen.contains key then none else some (⟨x, raw, equip⟩, key)

/-- The `while idx < len(words)` scan of one cluster (lines 258-283),
threading the cross-cluster `seen` set. -/
def anchor_scan (seen : List (String × ℤ)) :
    List WordBox → List EquipmentAnchor × List (String × ℤ)
  | [] => ([], seen)
  | w :: rest =>
    let rest2 := if should_merge w rest then rest.tail else rest
    let raw := if should_merge w rest then
        (⟨(normalize_token w.text).data ++ (normalize_token (rest.headD default).text).data⟩ :
          String)
      else normalize_token w.text
    match anchor_head seen w.x0 raw with
    | none => anchor_scan seen rest2
    | some (a, key) =>
      let r := anchor_scan (key :: seen) rest2
      (a :: r.1, r.2)
termination_by l => l.length
decreasing_by
  all_goals
    simp only [List.length_cons]
    split
    · rw [List.length_tail]
      omega
    · omega

/-- `_detect_anchors(clusters, title_y=…)` (lines 248-286): scan the
clusters inside the 120px title window, then sort the anchors by x. -/
def detect_anchors (clusters : List RowCluster) (title_y : ℚ) : List EquipmentAnchor :=
  ((clusters.foldl (fun (st : List EquipmentAnchor × List (String × ℤ)) cluster =>
      if decide (cluster.row_y < title_y) || decide (title_y + 120 < cluster.row_y) then st
      else
        let r := anchor_scan st.2 (cluster.words.insertionSort (fun a b => a.cx ≤ b.cx))
        (st.1 ++ r.1, r.2))
    ([], [])).1).insertionSort (fun a b => a.x ≤ b.x)

/-! ## C9 lemmas: `_normalize_token` fixes plain A-Z0-9 tokens -/

/-- Characters of the plain ASCII A-Z / 0-9 repertoire. -/
def plain_char (c : Char) : Prop :=
  (65 ≤ c.toNat ∧ c.toNat ≤ 90) ∨ (48 ≤ c.toNat ∧ c.toNat ≤ 57)

instance plain_char_decidable (c : Char) : Decidable (plain_char c) :=
  decidable_of_iff ((65 ≤ c.toNat ∧ c.toNat ≤ 90) ∨ (48 ≤ c.toNat ∧ c.toNat ≤ 57)) Iff.rfl

theorem plain_nfkc (c : Char) (h : plain_char c) : nfkc_char c = c := by
  have hb : c.toNat ≤ 90 := by rcases h with ⟨_, h2⟩ | ⟨_, h2⟩ <;> omega
  have h1 : ¬ c = '　' := by
    intro he
    subst he
    exact absurd hb (by decide)
  have h2 : ¬ (0xFF01 ≤ c.toNat ∧ c.toNat ≤ 0xFF5E) := by
    rintro ⟨ha, _⟩
    omega
  unfold nfkc_char
  rw [if_neg h1, if_neg h2]

theorem plain_upper (c : Char) (h : plain_char c) : upper_char c = c := by
  have hb : c.toNat ≤ 90 := by rcases h with ⟨_, h2⟩ | ⟨_, h2⟩ <;> omega
  have h1 : ¬ ('a' ≤ c ∧ c ≤ 'z') := by
    rintro ⟨ha, _⟩
    have : 97 ≤ c.toNat := ha
    omega
  unfold upper_char
  rw [if_neg h1]

theorem plain_not_dash (c : Char) (h : plain_char c) : is_dash_variant c = false := by
  have hb : c.toNat ≤ 90 := by rcases h with ⟨_, h2⟩ | ⟨_, h2⟩ <;> omega
  unfold is_dash_variant
  simp only [Bool.or_eq_false_iff, decide_eq_false_iff_not]
  refine ⟨⟨⟨⟨⟨⟨⟨?_, ?_⟩, ?_⟩, ?_⟩, ?_⟩, ?_⟩, ?_⟩, ?_⟩ <;>
    (intro he; subst he; exact absurd hb (by decide))

theorem plain_not_bracket (c : Char) (h : plain_char c) :
    (decide (c ∈ ['[', ']', '(', ')', '\x7b', '\x7d', '<', '>', '|', ',', '.', ';', ':',
      '\'', '"'])) = false := by
  rw [decide_eq_false]
  intro hm
  fin_cases hm <;> exact absurd h (by decide)

theorem map_self {α : Type} (f : α → α) :
    ∀ (l : List α), (∀ c ∈ l, f c = c) → l.map f = l
  | [], _ => rfl
  | x :: t, h => by
    rw [List.map_cons, h x (by simp), map_self f t (fun c hc => h c (by simp [hc]))]

theorem dropWhile_false (p : Char → Bool) :
    ∀ (l : List Char), (∀ x ∈ l, p x = false) → l.dropWhile p = l
  | [], _ => rfl
  | x :: t, h => by
    rw [List.dropWhile_cons, h x (by simp)]
    simp

theorem strip_list_id (p : Char → Bool) (l : List Char) (h : ∀ x ∈ l, p x = false) :
    strip_list p l = l := by
  unfold strip_list
  rw [dropWhile_false p l h, dropWhile_false p l.reverse (fun x hx => h x (by simpa using hx)),
    List.reverse_reverse]

theorem normalize_token_plain (l : List Char) (h : ∀ c ∈ l, plain_char c) :
    normalize_token ⟨l⟩ = ⟨l⟩ := by
  have e1 : normalize_dash ⟨l⟩ = ⟨l⟩ := by
    unfold normalize_dash normalize_text
    rw [show (String.mk l).data = l from rfl,
      map_self nfkc_char l (fun c hc => plain_nfkc c (h c hc)),
      map_self _ l (fun c hc => by rw [plain_not_dash c (h c hc)]; simp)]
  have e2 : to_upper ⟨l⟩ = ⟨l⟩ := by
    unfold to_upper
    rw [show (String.mk l).data = l from rfl,
      map_self upper_char l (fun c hc => plain_upper c (h c hc))]
  unfold normalize_token
  rw [e1, e2]
  unfold py_strip_chars
  rw [show (String.mk l).data = l from rfl,
    strip_list_id _ l (fun x hx => plain_not_bracket x (h x hx))]

theorem one_two_digits_shape (l : List Char) (h : is_one_two_digits ⟨l⟩ = true) :
    (∃ d, l = [d] ∧ is_ascii_digit d = true) ∨
      (∃ d e, l = [d, e] ∧ is_ascii_digit d = true ∧ is_ascii_digit e = true) := by
  rcases l with _ | ⟨d, _ | ⟨e, _ | ⟨f, t⟩⟩⟩
  · simp [is_one_two_digits] at h
  · exact Or.inl ⟨d, rfl, by simpa [is_one_two_digits] using h⟩
  · refine Or.inr ⟨d, e, rfl, ?_⟩
    simpa [is_one_two_digits, Bool.and_eq_true] using h
  · simp [is_one_two_digits] at h

theorem digit_plain (d : Char) (hd : is_ascii_digit d = true) : plain_char d := by
  have hdb := (by simpa [is_ascii_digit, Bool.and_eq_true, decide_eq_true_eq] using hd :
    '0' ≤ d ∧ d ≤ '9')
  exact Or.inr ⟨hdb.1, hdb.2⟩

theorem digit_not_upper (d : Char) (hd : is_ascii_digit d = true) :
    is_ascii_upper d = false := by
  have hdb := (by simpa [is_ascii_digit, Bool.and_eq_true, decide_eq_true_eq] using hd :
    '0' ≤ d ∧ d ≤ '9')
  have hub : d.toNat ≤ 57 := hdb.2
  unfold is_ascii_upper
  rw [Bool.and_eq_false_iff]
  left
  rw [decide_eq_false]
  intro hle
  have : 65 ≤ d.toNat := hle
  omega

/-- C9: in `_detect_anchors`, a cluster row inside the title window whose
two sorted tokens are a single uppercase letter and a one-or-two-digit
token is recombined into the single symbol (letter ++ digits) — emitted as
an equipment-code anchor — exactly when the horizontal gap between the
first token's right edge and the second token's left edge is at most 20px;
with a larger gap the letter stays a bare symbol-like anchor (empty
equipment) and no combined symbol is produced. -/
theorem detect_anchors_split_digit (w1 w2 : WordBox) (ry ty : ℚ) (c : Char) (ds : List Char)
    (hc : is_ascii_upper c = true) (hds : is_one_two_digits ⟨ds⟩ = true)
    (hw1 : w1.text = ⟨[c]⟩) (hw2 : w2.text = ⟨ds⟩)
    (hsort : w1.cx ≤ w2.cx) (hwin1 : ¬ ry < ty) (hwin2 : ¬ ty + 120 < ry) :
    (w2.x0 - w1.x1 ≤ 20 →
      detect_anchors [⟨ry, [w1, w2]⟩] ty = [⟨w1.x0, ⟨c :: ds⟩, ⟨c :: ds⟩⟩]) ∧
    (20 < w2.x0 - w1.x1 →
      detect_anchors [⟨ry, [w1, w2]⟩] ty = [⟨w1.x0, ⟨[c]⟩, ""⟩]) := by
  have hcu : 'A' ≤ c ∧ c ≤ 'Z' := by
    simpa [is_ascii_upper, Bool.and_eq_true, decide_eq_true_eq] using hc
  have hplc : plain_char c := Or.inl ⟨hcu.1, hcu.2⟩
  have hshape := one_two_digits_shape ds hds
  have hpld : ∀ x ∈ ds, plain_char x := by
    intro x hx
    rcases hshape with ⟨d, hdse, hd⟩ | ⟨d, e, hdse, hd, he⟩
    · subst hdse
      simp only [List.mem_singleton] at hx
      subst hx
      exact digit_plain _ hd
    · subst hdse
      simp only [List.mem_cons, List.mem_singleton, List.not_mem_nil, or_false] at hx
      rcases hx with hx | hx
      · subst hx; exact digit_plain _ hd
      · subst hx; exact digit_plain _ he
  have hnt1 : normalize_token w1.text = ⟨[c]⟩ := by
    rw [hw1]
    exact normalize_token_plain [c] (by
      intro x hx
      simp only [List.mem_singleton] at hx
      subst hx
      exact hplc)
  have hnt2 : normalize_token w2.text = ⟨ds⟩ := by
    rw [hw2]
    exact normalize_token_plain ds hpld
  have hntm : normalize_token ⟨c :: ds⟩ = ⟨c :: ds⟩ := by
    refine normalize_token_plain (c :: ds) ?_
    intro x hx
    rcases List.mem_cons.mp hx with hx | hx
    · subst hx; exact hplc
    · exact hpld x hx
  have e_su : is_single_upper ⟨[c]⟩ = is_ascii_upper c := rfl
  have hntc : normalize_token ⟨[c]⟩ = ⟨[c]⟩ :=
    normalize_token_plain [c] (by
      intro x hx
      simp only [List.mem_singleton] at hx
      subst hx
      exact hplc)
  have hcode : is_equipment_code ⟨c :: ds⟩ = true := by
    unfold is_equipment_code
    rw [hntm]
    rcases hshape with ⟨d, hdse, hd⟩ | ⟨d, e, hdse, hd, he⟩
    · subst hdse
      show (is_ascii_upper c && is_ascii_digit d) = true
      rw [hc, hd]
      rfl
    · subst hdse
      show (is_ascii_upper c && (is_ascii_digit d && is_ascii_digit e)) = true
      rw [hc, hd, he]
      rfl
  have hncode1 : is_equipment_code ⟨[c]⟩ = false := by
    unfold is_equipment_code
    rw [hntc]
    rfl
  have hsym1 : is_symbol_like ⟨[c]⟩ = true := by
    unfold is_symbol_like
    rw [hntc, e_su]
    exact hc
  have hncode2 : is_equipment_code ⟨ds⟩ = false := by
    unfold is_equipment_code
    rw [normalize_token_plain ds hpld]
    rcases hshape with ⟨d, hdse, hd⟩ | ⟨d, e, hdse, hd, he⟩
    · subst hdse
      rfl
    · subst hdse
      show (is_ascii_upper d && is_ascii_digit e) = false
      rw [digit_not_upper d hd]
      rfl
  have hnsym2 : is_symbol_like ⟨ds⟩ = false := by
    unfold is_symbol_like
    rw [normalize_token_plain ds hpld]
    rcases hshape with ⟨d, hdse, hd⟩ | ⟨d, e, hdse, hd, he⟩
    · subst hdse
      show is_ascii_upper d = false
      exact digit_not_upper d hd
    · subst hdse
      rfl
  have hsort2 : [w1, w2].insertionSort (fun a b => a.cx ≤ b.cx) = [w1, w2] := by
    simp only [List.insertionSort, List.orderedInsert, if_pos hsort]
  have hfold : ∀ anchors : List EquipmentAnchor,
      (anchor_scan [] ([w1, w2].insertionSort (fun a b => a.cx ≤ b.cx))).1 = anchors →
      detect_anchors [⟨ry, [w1, w2]⟩] ty =
        anchors.insertionSort (fun a b => a.x ≤ b.x) := by
    intro anchors hanch
    unfold detect_anchors
    simp only [List.foldl_cons, List.foldl_nil, decide_eq_false hwin1, decide_eq_false hwin2,
      Bool.or_self, Bool.false_eq_true, if_false, List.nil_append]
    rw [hanch]
  have hfold1 : ∀ a : EquipmentAnchor,
      (anchor_scan [] ([w1, w2].insertionSort (fun a b => a.cx ≤ b.cx))).1 = [a] →
      detect_anchors [⟨ry, [w1, w2]⟩] ty = [a] := by
    intro a ha
    rw [hfold [a] ha]
    simp [List.insertionSort, List.orderedInsert]
  constructor
  · intro hg
    have hsm : should_merge w1 [w2] = true := by
      show (is_single_upper (normalize_token w1.text) &&
        (is_one_two_digits (normalize_token w2.text) &&
          decide (w2.x0 - w1.x1 ≤ (20 : ℚ)))) = true
      rw [hnt1, hnt2, e_su, hc, hds, decide_eq_true hg]
      rfl
    have hscan : (anchor_scan [] [w1, w2]).1 = [⟨w1.x0, ⟨c :: ds⟩, ⟨c :: ds⟩⟩] := by
      rw [anchor_scan]
      simp only [hsm, if_true, List.tail_cons, List.headD_cons, hnt1, hnt2,
        List.singleton_append]
      rw [show anchor_head [] w1.x0 ⟨c :: ds⟩ =
          some (⟨w1.x0, ⟨c :: ds⟩, ⟨c :: ds⟩⟩, (⟨c :: ds⟩, py_round_int w1.x0)) from by
        unfold anchor_head
        rw [hcode]
        simp]
      simp [anchor_scan]
    exact hfold1 _ (by rw [hsort2]; exact hscan)
  · intro hg
    have hsm : should_merge w1 [w2] = false := by
      show (is_single_upper (normalize_token w1.text) &&
        (is_one_two_digits (normalize_token w2.text) &&
          decide (w2.x0 - w1.x1 ≤ (20 : ℚ)))) = false
      rw [hnt1, hnt2, e_su, hc, hds, decide_eq_false (not_le.mpr hg)]
      rfl
    have htail : (anchor_scan [(⟨[c]⟩, py_round_int w1.x0)] [w2]).1 = [] := by
      rw [anchor_scan]
      simp only [show should_merge w2 [] = false from rfl, Bool.false_eq_true, if_false, hnt2]
      rw [show anchor_head [(⟨[c]⟩, py_round_int w1.x0)] w2.x0 ⟨ds⟩ = none from by
        unfold anchor_head
        rw [hncode2, hnsym2]
        simp]
      simp [anchor_scan]
    have hscan : (anchor_scan [] [w1, w2]).1 = [⟨w1.x0, ⟨[c]⟩, ""⟩] := by
      rw [anchor_scan]
      simp only [hsm, Bool.false_eq_true, if_false, hnt1]
      rw [show anchor_head [] w1.x0 ⟨[c]⟩ =
          some (⟨w1.x0, ⟨[c]⟩, ""⟩, (⟨[c]⟩, py_round_int w1.x0)) from by
        unfold anchor_head
        rw [hncode1, hsym1]
        simp]
      simp [htail]
    exact hfold1 _ (by rw [hsort2]; exact hscan)

theorem detect_anchors_split_digit_witness :
    detect_anchors [⟨5, [⟨"D", 10, 5, 0, 0, 12, 10⟩, ⟨"1", 20, 5, 18, 0, 24, 10⟩]⟩] 0 =
      [⟨0, "D1", "D1"⟩] ∧
    detect_anchors [⟨5, [⟨"D", 10, 5, 0, 0, 12, 10⟩, ⟨"1", 100, 5, 60, 0, 110, 10⟩]⟩] 0 =
      [⟨0, "D", ""⟩] :=
  ⟨(detect_anchors_split_digit ⟨"D", 10, 5, 0, 0, 12, 10⟩ ⟨"1", 20, 5, 18, 0, 24, 10⟩ 5 0
      'D' ['1'] (by decide) (by decide) rfl rfl (by norm_num) (by norm_num) (by norm_num)).1
    (by norm_num),
   (detect_anchors_split_digit ⟨"D", 10, 5, 0, 0, 12, 10⟩ ⟨"1", 100, 5, 60, 0, 110, 10⟩ 5 0
      'D' ['1'] (by decide) (by decide) rfl rfl (by norm_num) (by norm_num) (by norm_num)).2
    (by norm_num)⟩

/-! ## e055 candidate extraction (e055_extractor.py lines 45-47, 304-411, 847-911, 981-1038)

Python regex searches are embedded as explicit left-to-right scanners.  The
patterns here contain no character both inside and outside a bracketed
class that borders it, so greedy runs never need backtracking; each scanner
is documented with the pattern it implements.  `\w`/`\b` (Unicode-aware in
Python) are restricted to ASCII word characters plus the hiragana/katakana
(U+3040-U+30FF) and CJK unified (U+4E00-U+9FFF) blocks exercised by the
extractor.  `round(x, n)` is round-half-to-even on ℚ. -/

def is_ascii_lower (c : Char) : Bool := 'a' ≤ c && c ≤ 'z'

def is_word_char (c : Char) : Bool :=
  is_ascii_upper c || is_ascii_lower c || is_ascii_digit c || c = '_' ||
    (0x3040 ≤ c.toNat && c.toNat ≤ 0x30FF) || (0x4E00 ≤ c.toNat && c.toNat ≤ 0x9FFF)

def is_colon_char (c : Char) : Bool := c = ':' || c = '：'

/-- The maker character class `[A-Za-z0-9&._-]`. -/
def is_maker_char (c : Char) : Bool :=
  is_ascii_upper c || is_ascii_lower c || is_ascii_digit c ||
    c = '&' || c = '.' || c = '_' || c = '-'

def is_upper_or_digit (c : Char) : Bool := is_ascii_upper c || is_ascii_digit c

/-- `DASH_VARIANTS_PATTERN.sub("-", ·)` without the NFKC step. -/
def dash_sub (l : List Char) : List Char :=
  l.map (fun c => if is_dash_variant c then '-' else c)

/-- `round(x, 2)`: round half to even at two decimals. -/
def py_round2 (q : ℚ) : ℚ := (py_round_int (q * 100) : ℚ) / 100

/-- `" ".join(tokens)`. -/
def join_spaces : List String → String
  | [] => ""
  | [t] => t
  | t :: ts => ⟨t.data ++ ' ' :: (join_spaces ts).data⟩

/-- `_normalize_code_token(value)` (lines 300-304 region): NFKC, quote
variants to `'`, strip `"[](){}<>|,.;"`. -/
def normalize_code_token (value : String) : String :=
  py_strip_chars ['[', ']', '(', ')', '\x7b', '\x7d', '<', '>', '|', ',', '.', ';']
    ⟨(normalize_text value).data.map (fun c => if c = '’' || c = '`' then '\'' else c)⟩

/-- `re.fullmatch(r"\d{1,2}[A-Z]?", s)` or `re.fullmatch(r"\d{1,2}G", s)`
(the latter is subsumed by the former since G is uppercase). -/
def suffix_code_ok (s : List Char) : Bool :=
  match s with
  | [d] => is_ascii_digit d
  | [d, e] => is_ascii_digit d && (is_ascii_digit e || is_ascii_upper e)
  | [d, e, f] => is_ascii_digit d && (is_ascii_digit e && is_ascii_upper f)
  | _ => false

/-- The allowed-prefix loop of `_is_equipment_code_token` (lines 304-322):
`startswith` checks in order, returning False early on an empty suffix. -/
def prefix_scan (u : List Char) : List (List Char) → Bool
  | [] => false
  | p :: ps =>
    if p.isPrefixOf u then
      let suffix := u.drop p.length
      if suffix.isEmpty then false
      else if suffix_code_ok suffix then true
      else prefix_scan u ps
    else prefix_scan u ps

def allowed_prefixes : List (List Char) :=
  ["CD".data, "CR".data, "CT".data, "UK".data, "WL".data, "CL".data, "XC".data,
   "X'C".data, "YC".data, "Y'C".data, "DL".data, "LL".data, "L".data, "TP".data,
   "GL".data, "SP".data, "ES".data, "EC".data]

/-- `_is_equipment_code_token(value)` (lines 304-322). -/
def is_equipment_code_token (value : String) : Bool :=
  let token := normalize_code_token value
  if token.data.isEmpty then false
  else
    let upper := to_upper token
    if EXCLUDED_EMERGENCY_CODES.contains upper then true
    else prefix_scan upper.data allowed_prefixes

/-- Prefix of the list before the first match of `\s+\d+\.(?=\s)` — the
`re.split(…, maxsplit=1)[0]` of `_cleanup_model_text`. -/
def num_dot_here (l : List Char) : Bool :=
  let ws := l.takeWhile is_py_space
  let r1 := l.dropWhile is_py_space
  if ws.isEmpty then false
  else
    let ds := r1.takeWhile is_ascii_digit
    let r2 := r1.dropWhile is_ascii_digit
    if ds.isEmpty then false
    else
      match r2 with
      | '.' :: c :: _ => is_py_space c
      | _ => false

def split_num_dot : List Char → List Char
  | [] => []
  | c :: cs => if num_dot_here (c :: cs) then [] else c :: split_num_dot cs

/-- `re.sub(r"\s*-\s*", "-", ·)`: every dash, with surrounding whitespace,
becomes a bare dash; `pend` buffers an unresolved whitespace run. -/
def dash_tight_go (pend : List Char) : List Char → List Char
  | [] => pend.reverse
  | c :: cs =>
    if is_py_space c then dash_tight_go (c :: pend) cs
    else if c = '-' then '-' :: dash_tight_go [] (cs.dropWhile is_py_space)
    else pend.reverse ++ (c :: dash_tight_go [] cs)
termination_by l => l.length
decreasing_by
  · simp
  · simp only [List.length_cons]
    exact Nat.lt_succ_of_le (List.dropWhile_sublist _).length_le
  · simp

/-- `_cleanup_model_text(value)` (lines 324-333). -/
def cleanup_model_text (value : String) : String :=
  let text := normalize_dash value
  let t1 := split_num_dot text.data
  let t2 := t1.takeWhile (fun c => c != '。')
  let t3 := py_strip_chars [' ', '|', '[', ']'] ⟨t2⟩
  let t4 := dash_tight_go [] t3.data
  py_strip ⟨collapse_ws2 t4⟩

def is_x_char (c : Char) : Bool := c = 'x' || c = 'X' || c = '×' || c = '✕'

/-- `MODEL_MULTIPLIER_SUFFIX_PATTERN.match` (line 46:
`\s*(?:\(\s*[xX×✕]\s*\d+\s*\)|[xX×✕]\s*\d+)`): the matched characters, or
`none`. -/
def mult_suffix (l : List Char) : Option (List Char) :=
  let ws := l.takeWhile is_py_space
  let r := l.dropWhile is_py_space
  match r with
  | '(' :: r1 =>
    let ws1 := r1.takeWhile is_py_space
    let r2 := r1.dropWhile is_py_space
    match r2 with
    | xc :: r3 =>
      if is_x_char xc then
        let ws2 := r3.takeWhile is_py_space
        let r4 := r3.dropWhile is_py_space
        let ds := r4.takeWhile is_ascii_digit
        let r5 := r4.dropWhile is_ascii_digit
        if ds.isEmpty then none
        else
          let ws3 := r5.takeWhile is_py_space
          let r6 := r5.dropWhile is_py_space
          match r6 with
          | ')' :: _ => some (ws ++ '(' :: (ws1 ++ xc :: (ws2 ++ ds ++ ws3 ++ [')'])))
          | _ => none
      else none
    | [] => none
  | xc :: r1 =>
    if is_x_char xc then
      let ws1 := r1.takeWhile is_py_space
      let r2 := r1.dropWhile is_py_space
      let ds := r2.takeWhile is_ascii_digit
      if ds.isEmpty then none else some (ws ++ xc :: (ws1 ++ ds))
    else none
  | [] => none

/-- `_append_multiplier_suffix(text, model, model_end)` (lines 336-339);
`after` is `text[model_end:]`. -/
def append_multiplier_suffix (after : List Char) (model : String) : String :=
  cleanup_model_text ⟨model.data ++ (mult_suffix after).getD []⟩

/-- `_char_pos_to_token_index(tokens, char_pos)` (e055 lines 364-373,
identical in e251 lines 226-234). -/
def cptti_go (cursor : ℤ) (idx : ℕ) (n : ℕ) (char_pos : ℤ) : List String → ℕ
  | [] => max (n - 1) 0
  | t :: ts =>
    if cursor ≤ char_pos ∧ char_pos < cursor + t.data.length then idx
    else cptti_go (cursor + t.data.length + 1) (idx + 1) n char_pos ts

def char_pos_to_token_index (tokens : List String) (char_pos : ℤ) : ℕ :=
  cptti_go 0 0 tokens.length char_pos tokens

/-- A match of `([A-Za-z][A-Za-z0-9&._-]{1,30})\s*[:：]\s*(.+)` anchored at
the head of `l` (`_extract_maker_and_model`'s regex, line 376): the maker
group (a maximal maker-character run of length 2..31, since no maker
character is whitespace or a colon, no backtracking can shorten it) and the
`.+` group (greedy, up to a newline).  The degenerate Python match whose
`.+` group backtracks into trailing whitespace is collapsed to `none`: such
a model cleans up to the empty string, and the caller treats an empty model
and a failed match identically. -/
def maker_model_here (l : List Char) : Option (List Char × List Char) :=
  match l with
  | [] => none
  | c :: _ =>
    if is_ascii_upper c || is_ascii_lower c then
      let run := l.takeWhile is_maker_char
      let rest := l.dropWhile is_maker_char
      if 2 ≤ run.length ∧ run.length ≤ 31 then
        match rest.dropWhile is_py_space with
        | k :: rest3 =>
          if is_colon_char k then
            let model := (rest3.dropWhile is_py_space).takeWhile (fun c => c != '\n')
            if model.isEmpty then none else some (run, model)
          else none
        | [] => none
      else none
    else none

def maker_model_search (pos : ℕ) : List Char → Option (ℕ × List Char × List Char)
  | [] => none
  | c :: cs =>
    match maker_model_here (c :: cs) with
    | some (mk, md) => some (pos, mk, md)
    | none => maker_model_search (pos + 1) cs

/-- `_extract_maker_and_model(segment_text)` (lines 375-381): `(maker,
cleaned model, maker start)`, `("", "", -1)` when the regex has no match. -/
def extract_maker_and_model (segment_text : String) : String × String × ℤ :=
  match maker_model_search 0 segment_text.data with
  | none => ("", "", -1)
  | some (pos, mk, md) => (py_strip ⟨mk⟩, cleanup_model_text ⟨md⟩, (pos : ℤ))

/-- One repetition unit `\s*-\s*[A-Z0-9]{1,20}` of `MODEL_PATTERN` (line 45),
whose trailing `\b` forces each unit's alphanumeric run to be complete:
a run longer than 20, or one followed by another word character, kills the
unit (no shorter take can end at a word boundary). -/
def unit_len_b (l : List Char) : Option ℕ :=
  let ws1 := l.takeWhile is_py_space
  let r1 := l.dropWhile is_py_space
  match r1 with
  | '-' :: r2 =>
    let ws2 := r2.takeWhile is_py_space
    let r3 := r2.dropWhile is_py_space
    let run := r3.takeWhile is_upper_or_digit
    let after := r3.dropWhile is_upper_or_digit
    if run.isEmpty || 20 < run.length then none
    else if (match after with | [] => true | c :: _ => !is_word_char c) then
      some (ws1.length + 1 + ws2.length + run.length)
    else none
  | _ => none

def units_total_b : ℕ → List Char → ℕ
  | 0, _ => 0
  | fuel + 1, l =>
    match unit_len_b l with
    | none => 0
    | some n => n + units_total_b fuel (l.drop n)

/-- One repetition unit of `COLON_MODEL_PATTERN`'s model part (line 47),
which has no trailing `\b`: a run longer than 20 is clipped greedily. -/
def unit_len_nb (l : List Char) : Option ℕ :=
  let ws1 := l.takeWhile is_py_space
  let r1 := l.dropWhile is_py_space
  match r1 with
  | '-' :: r2 =>
    let ws2 := r2.takeWhile is_py_space
    let r3 := r2.dropWhile is_py_space
    let run := r3.takeWhile is_upper_or_digit
    if run.isEmpty then none
    else some (ws1.length + 1 + ws2.length + min run.length 20)
  | _ => none

def units_total_nb : ℕ → List Char → ℕ
  | 0, _ => 0
  | fuel + 1, l =>
    match unit_len_nb l with
    | none => 0
    | some n => n + units_total_nb fuel (l.drop n)

/-- A match of `MODEL_PATTERN` = `\b([A-Z]{2,}(?:\s*-\s*[A-Z0-9]{1,20})+)\b`
anchored here (the leading `\b` is checked by the caller): the total match
length.  The uppercase run is maximal (a shorter take is followed by another
uppercase letter, matching neither `\s` nor `-`). -/
def model_here (l : List Char) : Option ℕ :=
  let run := l.takeWhile is_ascii_upper
  if run.length < 2 then none
  else
    let tot := units_total_b l.length (l.drop run.length)
    if tot = 0 then none else some (run.length + tot)

/-- `MODEL_PATTERN.finditer`: all non-overlapping matches, left to right,
as (start, length) pairs; `prev_word` tracks the word boundary. -/
def model_finditer : ℕ → Bool → ℕ → List Char → List (ℕ × ℕ)
  | 0, _, _, _ => []
  | _ + 1, _, _, [] => []
  | fuel + 1, prev_word, pos, c :: cs =>
    match (if prev_word then none else model_here (c :: cs)) with
    | some len =>
      (pos, len) :: model_finditer fuel true (pos + len) ((c :: cs).drop len)
    | none => model_finditer fuel (is_word_char c) (pos + 1) cs

/-- A match of `COLON_MODEL_PATTERN` (line 47) anchored here (leading `\b`
checked by the caller): `(maker group, model group, total length)`. -/
def col_model_here (l : List Char) : Option (List Char × List Char × ℕ) :=
  match l with
  | [] => none
  | c :: _ =>
    if is_ascii_upper c || is_ascii_lower c then
      let run := l.takeWhile is_maker_char
      let r1 := l.dropWhile is_maker_char
      if 2 ≤ run.length ∧ run.length ≤ 31 then
        let ws1 := (r1.takeWhile is_py_space).length
        match r1.dropWhile is_py_space with
        | k :: r3 =>
          if is_colon_char k then
            let ws2 := (r3.takeWhile is_py_space).length
            let r4 := r3.dropWhile is_py_space
            let um := r4.takeWhile is_ascii_upper
            if um.length < 2 then none
            else
              let tot := units_total_nb r4.length (r4.drop um.length)
              if tot = 0 then none
              else
                some (run, r4.take (um.length + tot),
                  run.length + ws1 + 1 + ws2 + um.length + tot)
          else none
        | [] => none
      else none
    else none

/-- `COLON_MODEL_PATTERN.finditer`: `(start, maker, model, end)` tuples. -/
def col_model_finditer : ℕ → Bool → ℕ → List Char → List (ℕ × List Char × List Char × ℕ)
  | 0, _, _, _ => []
  | _ + 1, _, _, [] => []
  | fuel + 1, prev_word, pos, c :: cs =>
    match (if prev_word then none else col_model_here (c :: cs)) with
    | some (mk, md, len) =>
      (pos, mk, md, pos + len) ::
        col_model_finditer fuel true (pos + len) ((c :: cs).drop len)
    | none => col_model_finditer fuel (is_word_char c) (pos + 1) cs

/-- `re.search(r"\d+(?:\.\d+)?\s*W", row_text, flags=re.IGNORECASE)`. -/
def wattage_here (l : List Char) : Bool :=
  let ds := l.takeWhile is_ascii_digit
  let r1 := l.dropWhile is_ascii_digit
  let wsW : List Char → Bool := fun r =>
    match r.dropWhile is_py_space with
    | c :: _ => c = 'W' || c = 'w'
    | [] => false
  if ds.isEmpty then false
  else
    match r1 with
    | '.' :: r2 =>
      let ds2 := r2.takeWhile is_ascii_digit
      let r3 := r2.dropWhile is_ascii_digit
      (!ds2.isEmpty && wsW r3) || wsW r1
    | _ => wsW r1

def wattage_search : List Char → Bool
  | [] => false
  | c :: cs => wattage_here (c :: cs) || wattage_search cs

/-- `_normalize_doujou_model`'s guard regex
`(ガ[ー-]?ド|犬[-ー]?f|一卡付|卡付|カード|力[ー一-]?[fľł]?付)` (lines 405-411),
checked at one position. -/
def guard_here (l : List Char) : Bool :=
  (match l with
   | 'ガ' :: 'ド' :: _ => true
   | 'ガ' :: 'ー' :: 'ド' :: _ => true
   | 'ガ' :: '-' :: 'ド' :: _ => true
   | _ => false) ||
  (match l with
   | '犬' :: 'f' :: _ => true
   | '犬' :: '-' :: 'f' :: _ => true
   | '犬' :: 'ー' :: 'f' :: _ => true
   | _ => false) ||
  "一卡付".data.isPrefixOf l || "卡付".data.isPrefixOf l || "カード".data.isPrefixOf l ||
  (match l with
   | '力' :: rest =>
     let r1 := match rest with
       | c :: r => if c = 'ー' || c = '一' || c = '-' then r else rest
       | [] => rest
     let r2 := match r1 with
       | c :: r => if c = 'f' || c = 'ľ' || c = 'ł' then r else r1
       | [] => r1
     match r2 with
     | '付' :: _ => true
     | _ => false
   | _ => false)

def guard_search : List Char → Bool
  | [] => false
  | c :: cs => guard_here (c :: cs) || guard_search cs

/-- `_normalize_doujou_model(segment_text)` (lines 405-411). -/
def normalize_doujou_model (segment_text : String) : String :=
  let compact := to_lower (compact_text segment_text)
  if str_contains compact "同上" then
    if guard_search compact.data then "同上ガード付" else "同上"
  else ""

/-- `_extract_model_without_colon_with_start(segment_text)` (lines 393-398). -/
def extract_model_without_colon_with_start (segment_text : String) : String × ℤ :=
  let text := cleanup_model_text segment_text
  match model_finditer text.data.length false 0 text.data with
  | [] => ("", -1)
  | (start, len) :: _ =>
    (append_multiplier_suffix (text.data.drop (start + len))
      ⟨(text.data.drop start).take len⟩, (start : ℤ))

/-- The candidate dict built by the cluster extractors: keys `row_x`,
`model_x`, 機器器具 (`equipment`), 相当型番 (`model`). -/
structure RawCand where
  row_x : ℚ
  model_x : ℚ
  equipment : String
  model : String
deriving DecidableEq, Repr

/-- `_extract_model_only_candidates(words)` (lines 847-877). -/
def extract_model_only_candidates (words : List WordBox) : List RawCand :=
  let sorted_words := words.insertionSort (fun a b => a.cx ≤ b.cx)
  if sorted_words.length < 2 then []
  else
    let tokens := sorted_words.map (fun w => py_strip (normalize_text w.text))
    let row_text := join_spaces tokens
    let nrt := dash_sub row_text.data
    if !wattage_search row_text.data then []
    else
      (model_finditer nrt.length false 0 nrt).foldl
        (fun (st : List (ℕ × String) × List RawCand) m =>
          let model := append_multiplier_suffix (nrt.drop (m.1 + m.2))
            ⟨(nrt.drop m.1).take m.2⟩
          if model.data.isEmpty then st
          else
            let token_index := char_pos_to_token_index tokens (m.1 : ℤ)
            if st.1.contains (token_index, model) then st
            else ((token_index, model) :: st.1,
              st.2 ++ [⟨py_round2 ((sorted_words.getD token_index default).x0),
                py_round2 ((sorted_words.getD token_index default).x0), "", model⟩]))
        ([], []) |>.2

/-- `_extract_colon_model_only_candidates(words)` (lines 880-911). -/
def extract_colon_model_only_candidates (words : List WordBox) : List RawCand :=
  let sorted_words := words.insertionSort (fun a b => a.cx ≤ b.cx)
  if sorted_words.length < 2 then []
  else
    let tokens := sorted_words.map (fun w => py_strip (normalize_text w.text))
    let row_text := join_spaces tokens
    let nrt := dash_sub row_text.data
    (col_model_finditer nrt.length false 0 nrt).foldl
      (fun (st : List (ℕ × String) × List RawCand) m =>
        let maker := py_strip ⟨m.2.1⟩
        let model := append_multiplier_suffix (nrt.drop m.2.2.2) ⟨m.2.2.1⟩
        if maker.data.isEmpty || model.data.isEmpty then st
        else
          let equivalent_model : String := ⟨maker.data ++ ':' :: model.data⟩
          let token_index := char_pos_to_token_index tokens (m.1 : ℤ)
          if st.1.contains (token_index, equivalent_model) then st
          else ((token_index, equivalent_model) :: st.1,
            st.2 ++ [⟨py_round2 ((sorted_words.getD token_index default).x0),
              py_round2 ((sorted_words.getD token_index default).x0), "",
              equivalent_model⟩]))
      ([], []) |>.2

/-- The per-segment body of `_extract_candidates_from_cluster`'s main loop
(lines 999-1037). -/
def segment_candidate (tokens : List String) (words : List WordBox)
    (seg : ℕ × ℕ) : Option RawCand :=
  let segment_tokens := (tokens.drop seg.1).take (seg.2 - seg.1)
  let segment_text := py_strip (join_spaces segment_tokens)
  if segment_text.data.isEmpty then none
  else
    let equipment := normalize_code_token (segment_tokens.getD 0 "")
    let row_x := py_round2 ((words.getD seg.1 default).x0)
    let mm : String × ℚ :=
      if str_contains segment_text ":" || str_contains segment_text "：" then
        let r := extract_maker_and_model segment_text
        if !r.1.data.isEmpty && !r.2.1.data.isEmpty then
          (⟨r.1.data ++ ':' :: r.2.1.data⟩,
           py_round2 ((words.getD (seg.1 +
             char_pos_to_token_index segment_tokens r.2.2) default).x0))
        else if !r.2.1.data.isEmpty then (r.2.1, row_x)
        else ("", row_x)
      else
        let remainder := join_spaces (segment_tokens.drop 1)
        let dj := normalize_doujou_model remainder
        if !dj.data.isEmpty then (dj, row_x)
        else
          let r := extract_model_without_colon_with_start remainder
          if 0 ≤ r.2 then
            (r.1, py_round2 ((words.getD (seg.1 + 1 +
              char_pos_to_token_index (segment_tokens.drop 1) r.2) default).x0))
          else (r.1, row_x)
    if mm.1.data.isEmpty then none
    else some ⟨row_x, mm.2, equipment, mm.1⟩

/-- `_extract_candidates_from_cluster(cluster)` (lines 981-1038). -/
def extract_candidates_from_cluster (cluster : RowCluster) : List RawCand :=
  let words := cluster.words.insertionSort (fun a b => a.cx ≤ b.cx)
  if words.isEmpty then []
  else
    let tokens := words.map (fun w => py_strip (normalize_text w.text))
    let code_indexes := (List.range tokens.length).filter
      (fun i => is_equipment_code_token (tokens.getD i ""))
    if code_indexes.isEmpty then
      let has_colon_token := tokens.any (fun t => str_contains t ":" || str_contains t "：")
      let colon_candidates :=
        if has_colon_token then extract_colon_model_only_candidates words else []
      if !colon_candidates.isEmpty then colon_candidates
      else extract_model_only_candidates words
    else
      (code_indexes.zip (code_indexes.tail ++ [tokens.length])).filterMap
        (segment_candidate tokens words)

set_option maxHeartbeats 1000000 in
/-- C4 (amended): for every cluster whose five words, sorted by cx, carry
the texts "L1", "(L1500)", ":", "DAIKO" and "DSY-4394YWG",
`_extract_candidates_from_cluster` returns the empty list — not a record
with symbol "L1(L1500)".  "L1" is the only equipment-code token, so the
whole row is one segment; the segment contains a colon, but the maker group
of `_extract_maker_and_model`'s regex must sit directly before the colon
(up to whitespace), and the parenthesized "(L1500)" in between blocks every
match, so no 相当型番 is assembled and the segment is dropped. -/
theorem extract_candidates_scenario (w1 w2 w3 w4 w5 : WordBox) (ry : ℚ)
    (h1 : w1.text = "L1") (h2 : w2.text = "(L1500)") (h3 : w3.text = ":")
    (h4 : w4.text = "DAIKO") (h5 : w5.text = "DSY-4394YWG")
    (s12 : w1.cx ≤ w2.cx) (s23 : w2.cx ≤ w3.cx) (s34 : w3.cx ≤ w4.cx)
    (s45 : w4.cx ≤ w5.cx) :
    extract_candidates_from_cluster ⟨ry, [w1, w2, w3, w4, w5]⟩ = [] := by
  have hsorted : [w1, w2, w3, w4, w5].insertionSort (fun a b => a.cx ≤ b.cx) =
      [w1, w2, w3, w4, w5] := by
    simp [List.insertionSort, List.orderedInsert, s12, s23, s34, s45]
  have hseg : ∀ ws : List WordBox,
      segment_candidate ["L1", "(L1500)", ":", "DAIKO", "DSY-4394YWG"] ws (0, 5) = none := by
    intro ws
    unfold segment_candidate
    norm_num +decide [join_spaces, py_strip, strip_list, is_py_space, str_contains,
      list_infix, extract_maker_and_model, maker_model_search, maker_model_here,
      is_maker_char, is_ascii_upper, is_ascii_lower, is_ascii_digit, is_colon_char,
      normalize_code_token, normalize_text, nfkc_char, py_strip_chars]
  have e1 : py_strip (normalize_text "L1") = "L1" := by decide
  have e2 : py_strip (normalize_text "(L1500)") = "(L1500)" := by decide
  have e3 : py_strip (normalize_text ":") = ":" := by decide
  have e4 : py_strip (normalize_text "DAIKO") = "DAIKO" := by decide
  have e5 : py_strip (normalize_text "DSY-4394YWG") = "DSY-4394YWG" := by decide
  have hci : ((List.range
        (["L1", "(L1500)", ":", "DAIKO", "DSY-4394YWG"] : List String).length).filter
        (fun i => is_equipment_code_token
          ((["L1", "(L1500)", ":", "DAIKO", "DSY-4394YWG"] : List String).getD i ""))) =
      [0] := by decide
  unfold extract_candidates_from_cluster
  dsimp only
  rw [hsorted]
  simp only [List.map_cons, List.map_nil, h1, h2, h3, h4, h5, e1, e2, e3, e4, e5]
  rw [show ([w1, w2, w3, w4, w5].isEmpty) = false from rfl]
  simp only [Bool.false_eq_true, if_false, hci]
  rw [show ([0].zip (([0] : List ℕ).tail ++
      [(["L1", "(L1500)", ":", "DAIKO", "DSY-4394YWG"] : List String).length])) = [(0, 5)]
    from rfl]
  simp [hseg]

theorem extract_candidates_scenario_witness :
    extract_candidates_from_cluster ⟨7, [⟨"L1", 100, 7, 95, 2, 110, 12⟩,
        ⟨"(L1500)", 130, 7, 120, 2, 160, 12⟩, ⟨":", 170, 7, 168, 2, 172, 12⟩,
        ⟨"DAIKO", 200, 7, 190, 2, 220, 12⟩,
        ⟨"DSY-4394YWG", 260, 7, 230, 2, 300, 12⟩]⟩ = [] :=
  extract_candidates_scenario ⟨"L1", 100, 7, 95, 2, 110, 12⟩
    ⟨"(L1500)", 130, 7, 120, 2, 160, 12⟩ ⟨":", 170, 7, 168, 2, 172, 12⟩
    ⟨"DAIKO", 200, 7, 190, 2, 220, 12⟩ ⟨"DSY-4394YWG", 260, 7, 230, 2, 300, 12⟩ 7
    rfl rfl rfl rfl rfl (by norm_num) (by norm_num) (by norm_num) (by norm_num)

set_option maxHeartbeats 4000000 in
/-- C4 (counterexample to the claim as stated): the concrete scenario
cluster — sorted tokens ["L1", "(L1500)", ":", "DAIKO", "DSY-4394YWG"] —
yields no candidate record, so in particular no record with equipment
symbol "L1(L1500)", manufacturer "DAIKO" and model "DSY-4394YWG" is
returned. -/
theorem extract_candidates_scenario_empty :
    extract_candidates_from_cluster ⟨5, [⟨"L1", 10, 5, 8, 0, 14, 10⟩,
        ⟨"(L1500)", 30, 5, 26, 0, 46, 10⟩, ⟨":", 50, 5, 48, 0, 52, 10⟩,
        ⟨"DAIKO", 70, 5, 66, 0, 84, 10⟩,
        ⟨"DSY-4394YWG", 90, 5, 86, 0, 130, 10⟩]⟩ = [] ∧
      ∀ r : RawCand, r ∈ extract_candidates_from_cluster ⟨5, [⟨"L1", 10, 5, 8, 0, 14, 10⟩,
        ⟨"(L1500)", 30, 5, 26, 0, 46, 10⟩, ⟨":", 50, 5, 48, 0, 52, 10⟩,
        ⟨"DAIKO", 70, 5, 66, 0, 84, 10⟩,
        ⟨"DSY-4394YWG", 90, 5, 86, 0, 130, 10⟩]⟩ →
        ¬ (r.equipment = "L1(L1500)" ∧ r.model = "DAIKO:DSY-4394YWG") := by
  have he : extract_candidates_from_cluster ⟨5, [⟨"L1", 10, 5, 8, 0, 14, 10⟩,
      ⟨"(L1500)", 30, 5, 26, 0, 46, 10⟩, ⟨":", 50, 5, 48, 0, 52, 10⟩,
      ⟨"DAIKO", 70, 5, 66, 0, 84, 10⟩,
      ⟨"DSY-4394YWG", 90, 5, 86, 0, 130, 10⟩]⟩ = [] := by
    norm_num +decide [extract_candidates_from_cluster, segment_candidate,
      is_equipment_code_token, normalize_code_token, prefix_scan, allowed_prefixes,
      suffix_code_ok, EXCLUDED_EMERGENCY_CODES, py_strip, strip_list, is_py_space,
      py_strip_chars, normalize_text, nfkc_char, join_spaces, str_contains, list_infix,
      extract_maker_and_model, maker_model_search, maker_model_here, is_maker_char,
      is_ascii_upper, is_ascii_lower, is_ascii_digit, is_colon_char, to_upper,
      upper_char, List.range, List.range.loop, List.insertionSort, List.orderedInsert]
  refine ⟨he, ?_⟩
  rw [he]
  intro r hr
  simp at hr
